import Mathlib

/-!
# JANUS class 16 plugin (variant 01): application-data bit fields, cargo size table, cargo CRC

A shallow embedding of `src/c/plugins/plugin_016_01.c`.

* `janus_uint64_t` values are natural numbers; every operation that can leave the 64-bit range
  is followed by an explicit `% 2 ^ 64`.
* Output slots (`*app_data`, `*cargo_size`, `*app_fields`) are passed in and returned explicitly.
* The field container, the error codes, the CRC-16 primitive and the C library are not part of
  the plugin; what the plugin needs of them is modelled below and marked as such.
-/

namespace Janus

/-! ## Labels and constants of the plugin -/

def STATION_ID_LABEL : String := "StationIdentifier"
def PSET_ID_LABEL : String := "ParameterSetIdentifier"
def PAYLOAD_SIZE_LABEL : String := "PayloadSize"
def PAYLOAD_LABEL : String := "Payload"
def DESTINATION_ID_LABEL : String := "DestinationIdentifier"
def ACK_REQUEST : String := "AckRequest"
def CRC_BYTES : Nat := 2

/-! ## External collaborators -/

/-- Modelled from the spec: `janus/error.h` is not among the sources. The spec lists the error
codes as discrete result codes, with `0` for success; `ok` is the C value `0`. -/
inductive janus_rc
  | ok
  | JANUS_ERROR_FIELDS
  | JANUS_ERROR_CARGO_SIZE
  | JANUS_ERROR_CARGO_CORRUPTED
deriving DecidableEq

/-- Modelled from the spec: the value of a field is a string or a binary blob (a list of bytes). -/
inductive janus_value
  | str (s : String)
  | blob (bytes : List Nat)
deriving DecidableEq

/-- Modelled from the spec: one entry of the named field collection, a (name, value) pair. -/
structure janus_app_field where
  name : String
  value : janus_value
deriving DecidableEq

/-- Modelled from the spec: the named field collection is an ordered sequence of entries, read by
index (`fields[i]`, `field_count`) and extended at its end. -/
abbrev janus_app_fields := List janus_app_field

/-- Modelled from the spec: "construct-new" of the field container gives the empty collection. -/
def janus_app_fields_new : janus_app_fields := []

/-- Modelled from the spec: "append-named-string-field" of the field container. -/
def janus_app_fields_add_field (app_fields : janus_app_fields) (name value : String) :
    janus_app_fields :=
  app_fields ++ [⟨name, janus_value.str value⟩]

/-- Modelled from the spec: "append-named-binary-field" of the field container; the blob is the
given sequence of bytes. -/
def janus_app_fields_add_blob (app_fields : janus_app_fields) (name : String)
    (bytes : List Nat) : janus_app_fields :=
  app_fields ++ [⟨name, janus_value.blob bytes⟩]

/-! ## C library: `atoi`, `sprintf`, `strcmp` -/

/-- The characters a C routine sees behind a `char*` value: everything before the first NUL. -/
def c_str : janus_value → List Char
  | janus_value.str s => s.data.takeWhile (fun c => c.toNat ≠ 0)
  | janus_value.blob b => (b.takeWhile (fun x => x % 256 ≠ 0)).map (fun x => Char.ofNat (x % 256))

/-- The C library `isspace` in the "C" locale: space, and the controls 9 to 13. -/
def isspace (c : Char) : Bool := c.toNat = 32 || (9 ≤ c.toNat && c.toNat ≤ 13)

/-- The C library `isdigit`. -/
def isdigit (c : Char) : Bool := 48 ≤ c.toNat && c.toNat ≤ 57

/-- The value of the longest run of decimal digits at the head of `s`, continuing from `acc`. -/
def parse_digits : List Char → Nat → Nat
  | [], acc => acc
  | c :: cs, acc => if isdigit c then parse_digits cs (10 * acc + (c.toNat - 48)) else acc

/-- The C library `strtol(s, NULL, 10)` with a 64-bit `long`: blanks are skipped, one sign is
read, then the digits; the result saturates at the ends of the `long` range. -/
def strtol (s : List Char) : Int :=
  match s.dropWhile isspace with
  | [] => 0
  | c :: cs =>
    if c.toNat = 45 then max (-(2 ^ 63 : Int)) (-(parse_digits cs 0 : Int))
    else if c.toNat = 43 then min (2 ^ 63 - 1 : Int) (parse_digits cs 0 : Int)
    else min (2 ^ 63 - 1 : Int) (parse_digits (c :: cs) 0 : Int)

/-- The C library `atoi`: `(int) strtol(s, NULL, 10)`, the cast keeping the low 32 bits. -/
def atoi (s : List Char) : Int := Int.bmod (strtol s) (2 ^ 32)

/-- The conversion of an `int` to `janus_uint64_t` (reduction modulo `2 ^ 64`). -/
def int_to_uint64 (i : Int) : Nat := (i % (2 ^ 64 : Int)).toNat

/-- The decimal digits of `n`, most significant first, put in front of `acc`. -/
def utoa_digits : Nat → Nat → List Char → List Char
  | 0, _, acc => acc
  | fuel + 1, n, acc =>
    if n < 10 then Char.ofNat (48 + n) :: acc
    else utoa_digits fuel (n / 10) (Char.ofNat (48 + n % 10) :: acc)

/-- The string written by `sprintf(value, "%u", n)`. -/
def sprintf_u (n : Nat) : String := String.mk (utoa_digits (n + 1) n [])

/-- The characters written by `sprintf(value, "%3u", n)`, the terminating NUL apart: blanks on
the left up to a width of three. Whether the destination array holds them is checked where the
array is declared. -/
def sprintf_3u (n : Nat) : String :=
  let ds := utoa_digits (n + 1) n []
  String.mk (List.replicate (3 - ds.length) (Char.ofNat 32) ++ ds)

/-! ## Bit masks on the 64-bit word -/

def BMASK (var bit : Nat) : Nat := (var >>> (64 - bit)) &&& 0x00000001

def LMASK (var bits : Nat) : Nat := var &&& (0xFFFFFFFFFFFFFFFF >>> (64 - bits))

def HMASK (var bits : Nat) : Nat := var &&& ((0xFFFFFFFFFFFFFFFF <<< (64 - bits)) % 2 ^ 64)

/-! ## Cargo size table -/

def cargo_lookup_index (index : Nat) : Nat :=
  if index = 0 then 0 else index

/-- The pair `(index, esize)`: the value returned and the value stored through `esize`. -/
def cargo_lookup_size (dsize : Nat) : Nat × Nat :=
  if dsize < 3 then (dsize, dsize)
  else if dsize < 5 then (3, 4)
  else if dsize ≤ 480 then
    let esize := (((dsize - 1) &&& 0xfff8) + 8) % 2 ^ 32
    (4 + ((esize - 8) / 8), esize)
  else (0, 0)

/-! ## Application data: decoding -/

def app_data_decode_station_id (app_data : Nat) (app_fields : janus_app_fields) :
    janus_app_fields :=
  let station_id := ((app_data >>> 18) &&& 0xFF) % 2 ^ 8
  janus_app_fields_add_field app_fields STATION_ID_LABEL (sprintf_u station_id)

def app_data_decode_destination_id (app_data : Nat) (app_fields : janus_app_fields) :
    janus_app_fields :=
  let destination_id := ((app_data >>> 10) &&& 0xFF) % 2 ^ 8
  janus_app_fields_add_field app_fields DESTINATION_ID_LABEL (sprintf_u destination_id)

def app_data_decode_ack_request (app_data : Nat) (app_fields : janus_app_fields) :
    janus_app_fields :=
  let ack_request := if ((app_data >>> 9) &&& 0x1) % 2 ^ 8 = 0 then 0 else 1
  janus_app_fields_add_field app_fields ACK_REQUEST (sprintf_u ack_request)

def app_data_decode_pset_id (app_data : Nat) (app_fields : janus_app_fields) :
    janus_app_fields :=
  let pset_id := ((app_data >>> 6) &&& 0xFFF) % 2 ^ 16
  janus_app_fields_add_field app_fields PSET_ID_LABEL (sprintf_u pset_id)

def app_data_decode_cargo_size (app_data : Nat) : Nat :=
  let cargo_size_index := (app_data &&& 0xFF) % 2 ^ 32
  cargo_lookup_index cargo_size_index

/-- The triple (return value, `*cargo_size`, field collection after the call). -/
def app_data_decode (app_data : Nat) (app_data_size : Nat) (app_fields : janus_app_fields) :
    janus_rc × Nat × janus_app_fields :=
  let _ := app_data_size
  let app_fields := app_data_decode_station_id app_data app_fields
  let app_fields := app_data_decode_destination_id app_data app_fields
  let app_fields := app_data_decode_ack_request app_data app_fields
  let cargo_size := app_data_decode_cargo_size app_data
  (janus_rc.ok, cargo_size, app_fields)

/-! ## Application data: encoding -/

def app_fields_encode_station_id (app_data : Nat) (app_data_field : janus_app_field) : Nat :=
  let station_id := int_to_uint64 (atoi (c_str app_data_field.value))
  HMASK app_data 38 ||| (station_id <<< 18) % 2 ^ 64 ||| LMASK app_data 18

def app_fields_encode_destination_id (app_data : Nat) (app_data_field : janus_app_field) : Nat :=
  let destination_id := int_to_uint64 (atoi (c_str app_data_field.value))
  HMASK app_data 46 ||| (destination_id <<< 10) % 2 ^ 64 ||| LMASK app_data 10

def app_fields_encode_ack_request (app_data : Nat) (app_data_field : janus_app_field) : Nat :=
  let ack_request := int_to_uint64 (atoi (c_str app_data_field.value))
  HMASK app_data 54 ||| (ack_request <<< 9) % 2 ^ 64 ||| LMASK app_data 9

def app_fields_encode_pset_id (app_data : Nat) (app_data_field : janus_app_field) : Nat :=
  let pset_id := int_to_uint64 (atoi (c_str app_data_field.value))
  HMASK app_data 46 ||| (pset_id <<< 6) % 2 ^ 64 ||| LMASK app_data 6

/-- The pair (`*app_data` after the call, value returned). -/
def app_fields_encode_cargo_size (app_data : Nat) (desired_cargo_size : Nat) : Nat × Nat :=
  let cargo_size := (cargo_lookup_size desired_cargo_size).2
  (HMASK app_data 58 ||| desired_cargo_size, cargo_size)

/-- The body of the loop of `app_data_encode`, for the entry `fields[i]`. -/
def app_data_encode_entry (app_data : Nat) (field : janus_app_field) : Nat :=
  if field.name = STATION_ID_LABEL then app_fields_encode_station_id app_data field
  else if field.name = DESTINATION_ID_LABEL then app_fields_encode_destination_id app_data field
  else if field.name = ACK_REQUEST then app_fields_encode_ack_request app_data field
  else if field.name = PSET_ID_LABEL then app_fields_encode_pset_id app_data field
  else app_data

/-- The triple (return value, `*cargo_size`, `*app_data`) after the call; `cargo_size0` is what
`*cargo_size` held before it, and `none` is the null collection. -/
def app_data_encode (desired_cargo_size : Nat) (app_fields : Option janus_app_fields)
    (app_data_size : Nat) (cargo_size0 : Nat) : janus_rc × Nat × Nat :=
  let _ := app_data_size
  let app_data := 0
  if desired_cargo_size > 480 then (janus_rc.JANUS_ERROR_CARGO_SIZE, cargo_size0, app_data)
  else
    let (app_data, cargo_size) := app_fields_encode_cargo_size app_data desired_cargo_size
    match app_fields with
    | none => (janus_rc.ok, cargo_size, app_data)
    | some fields => (janus_rc.ok, cargo_size, fields.foldl app_data_encode_entry app_data)

/-! ## Cargo -/

/-- The difference of two `unsigned` values, which wraps around below zero. -/
def sub_u32 (a b : Nat) : Nat := (a % 2 ^ 32 + 2 ^ 32 - b % 2 ^ 32) % 2 ^ 32

/-- The buffer `cargo` is the list of its bytes; reading a byte that the buffer does not hold has
no defined result, which is `none`. -/
def janus_packet_get_crc16 (cargo : List Nat) (cargo_size : Nat) : Option Nat :=
  match cargo[sub_u32 cargo_size CRC_BYTES]?, cargo[sub_u32 cargo_size 1]? with
  | some msb, some lsb =>
    let MSB := msb % 2 ^ 8
    let LSB := lsb % 2 ^ 8
    let crc := ((MSB <<< 8) + LSB) % 2 ^ 16
    some crc
  | _, _ => none

/-- The pair (return value, `*app_fields` after the call), or `none` when the call has no defined
result: when `sprintf` writes more than the four bytes of the local array `size_string` (its
characters and the terminating NUL), or when the call reads bytes that the buffer `cargo` does
not hold. The CRC-16 primitive `janus_crc_16 data data_len seed` is external and is a parameter;
`app_fields = none` is the null handle. The diagnostic line printed on a CRC mismatch is not
modelled. -/
def cargo_decode (janus_crc_16 : List Nat → Nat → Nat → Nat) (cargo : List Nat)
    (cargo_size : Nat) (app_fields : Option janus_app_fields) :
    Option (janus_rc × janus_app_fields) :=
  let rv := janus_rc.ok
  let fields := match app_fields with
    | none => janus_app_fields_new
    | some fs => fs
  let size_string := sprintf_3u (cargo_size % 2 ^ 32)
  if size_string.length + 1 > 4 then none
  else
    let fields := janus_app_fields_add_field fields PAYLOAD_SIZE_LABEL size_string
    let payload_size := sub_u32 cargo_size 2
    if payload_size ≤ cargo.length then
      let fields := janus_app_fields_add_blob fields PAYLOAD_LABEL (cargo.take payload_size)
      let ccrc := janus_crc_16 (cargo.take payload_size) payload_size 0 % 2 ^ 16
      match janus_packet_get_crc16 cargo cargo_size with
      | some pcrc =>
        if ccrc ≠ pcrc then some (janus_rc.JANUS_ERROR_CARGO_CORRUPTED, fields)
        else some (rv, fields)
      | none => none
    else none

/-- The conversion of an `int` to `unsigned`. -/
def int_to_uint32 (i : Int) : Nat := (i % (2 ^ 32 : Int)).toNat

/-- The bytes of a field value up to its terminating NUL: a string is stored in UTF-8. -/
def c_bytes : janus_value → List Nat
  | janus_value.str s =>
    ((s.data.takeWhile (fun c => c.toNat ≠ 0)).map
      (fun c => (String.utf8EncodeChar c).map (fun b => b.toNat))).flatten
  | janus_value.blob bytes => (bytes.map (fun b => b % 256)).takeWhile (fun b => b ≠ 0)

def strlen (v : janus_value) : Nat := (c_bytes v).length

/-- The triple (return value, `*cargo`, `*cargo_size`) after the call, or `none` when the call
has no defined result; `cargo0` and `cargo_size0` are what `*cargo` and `*cargo_size` held before
it. The constant `JANUS_MAX_PKT_CARGO_SIZE` and the allocator `JANUS_UTILS_MEMORY_REALLOC ptr
count` (here for elements of one byte) are declared outside this file and are parameters. The
allocator reallocates: its pointer has to be null or a buffer the allocator gave out. The routine
hands it the character `*payload` where the pointer `*cargo` is expected; that is the null
pointer for an empty payload, and for any other payload the call has no defined result. The
routine never writes into the buffer it gets back. -/
def cargo_encode (JANUS_MAX_PKT_CARGO_SIZE : Nat)
    (JANUS_UTILS_MEMORY_REALLOC : Nat → Nat → Option (List Nat))
    (app_fields : janus_app_fields) (cargo0 : Option (List Nat)) (cargo_size0 : Nat) :
    Option (janus_rc × Option (List Nat) × Nat) :=
  let rv := janus_rc.JANUS_ERROR_FIELDS
  let (cargo_size, cargo_size_found) :=
    match app_fields.find? (fun f => f.name = PAYLOAD_SIZE_LABEL) with
    | some f => (int_to_uint32 (atoi (c_str f.value)), true)
    | none => (cargo_size0, false)
  match app_fields.find? (fun f => f.name = PAYLOAD_LABEL) with
  | some f =>
    let cargo_size := if ! cargo_size_found then strlen f.value % 2 ^ 32 else cargo_size
    if cargo_size > JANUS_MAX_PKT_CARGO_SIZE then
      some (janus_rc.JANUS_ERROR_CARGO_SIZE, cargo0, cargo_size)
    else
      let payload := c_bytes f.value
      if payload.headD 0 ≠ 0 then none
      else
        let cargo := JANUS_UTILS_MEMORY_REALLOC (payload.headD 0) cargo_size
        let rv := janus_rc.ok
        if cargo_size = 0 then some (janus_rc.ok, cargo, cargo_size)
        else some (rv, cargo, cargo_size)
  | none =>
    if cargo_size = 0 then some (janus_rc.ok, cargo0, cargo_size)
    else some (rv, cargo0, cargo_size)

/-! ## Vocabulary of the specification -/

/-- The number a field entry stands for, as the encoder reads it. -/
def entry_value (f : janus_app_field) : Nat := int_to_uint64 (atoi (c_str f.value))

/-- The value of the first entry of the collection named `name`, and `0` when there is none. -/
def field_value (name : String) (fields : janus_app_fields) : Nat :=
  match fields.find? (fun f => f.name = name) with
  | some f => entry_value f
  | none => 0

/-- The number of entries of the collection named `name`. -/
def field_count (name : String) (fields : janus_app_fields) : Nat :=
  fields.countP (fun f => f.name = name)

/-- The field at "offset `o`, width `n`" when bit 0 is the most significant bit of the 64-bit
word, as the specification numbers bits. -/
def msb_field (word o n : Nat) : Nat := (word >>> (64 - o - n)) % 2 ^ n

/-- The field of width `n` whose lowest bit is bit `o`, bit 0 being the least significant bit. -/
def lsb_field (word o n : Nat) : Nat := (word >>> o) % 2 ^ n

/-- The specification's wording for sizes from 5 to 480: `n` rounded up to a multiple of 8. -/
def round_up_8 (n : Nat) : Nat := (n + 7) / 8 * 8

/-- The transmitted CRC: the last two bytes of the buffer read big-endian, byte `cargo_size - 2`
first. -/
def transmitted_crc (cargo : List Nat) (cargo_size : Nat) : Nat :=
  256 * (cargo.getD (cargo_size - 2) 0 % 256) + cargo.getD (cargo_size - 1) 0 % 256

/-- Whether `name` is one of the four names the encoder of the application data recognises. -/
def recognised (name : String) : Bool :=
  name = STATION_ID_LABEL || name = DESTINATION_ID_LABEL || name = ACK_REQUEST ||
    name = PSET_ID_LABEL

/-- The span the encoder writes an entry named `name` to, as (lowest bit, width), bit 0 being the
least significant bit; `none` for a name the encoder skips. -/
def field_span (name : String) : Option (Nat × Nat) :=
  if name = STATION_ID_LABEL then some (18, 8)
  else if name = DESTINATION_ID_LABEL then some (10, 8)
  else if name = ACK_REQUEST then some (9, 1)
  else if name = PSET_ID_LABEL then some (6, 12)
  else none

/-- Whether the value of an entry fits the width of the field it is written to. -/
def entry_fits (f : janus_app_field) : Bool :=
  match field_span f.name with
  | some (_, b) => decide (entry_value f < 2 ^ b)
  | none => true

/-- The collection with every later duplicate of a name removed: the first entry of each name is
kept. -/
def remove_later_duplicates : janus_app_fields → janus_app_fields
  | [] => []
  | f :: rest => f :: (remove_later_duplicates rest).filter (fun g => g.name ≠ f.name)

/-- The collection with every earlier duplicate of a name removed: the last entry of each name is
kept. -/
def remove_earlier_duplicates : janus_app_fields → janus_app_fields
  | [] => []
  | f :: rest =>
    if rest.any (fun g => g.name = f.name) then remove_earlier_duplicates rest
    else f :: remove_earlier_duplicates rest

/-! ## Bits of the 64-bit word -/

theorem all_ones_64 : (0xFFFFFFFFFFFFFFFF : Nat) = 2 ^ 64 - 1 := by norm_num

theorem testBit_HMASK (w bits i : Nat) :
    (HMASK w bits).testBit i = (w.testBit i && (decide (64 - bits ≤ i) && decide (i < 64))) := by
  unfold HMASK
  rw [all_ones_64, Nat.testBit_and, Nat.testBit_mod_two_pow, Nat.testBit_shiftLeft,
    Nat.testBit_two_pow_sub_one]
  by_cases h1 : 64 - bits ≤ i <;> by_cases h2 : i < 64 <;> simp [h1, h2]
  omega

theorem testBit_LMASK (w bits i : Nat) (hb : bits ≤ 64) :
    (LMASK w bits).testBit i = (w.testBit i && decide (i < bits)) := by
  unfold LMASK
  rw [all_ones_64, Nat.testBit_and, Nat.testBit_shiftRight, Nat.testBit_two_pow_sub_one]
  by_cases h1 : i < bits <;> simp [h1] <;> omega

theorem testBit_high_of_lt (v b j : Nat) (hv : v < 2 ^ b) (hj : b ≤ j) : v.testBit j = false :=
  Nat.testBit_lt_two_pow (lt_of_lt_of_le hv (Nat.pow_le_pow_right (by norm_num) hj))

/-- The bit `i` of the word a field writer produces, for any value `v`. -/
theorem testBit_write (w v k b i : Nat) (hkb : k + b ≤ 64) (hw : w < 2 ^ 64) :
    (HMASK w (64 - k - b) ||| (v <<< k) % 2 ^ 64 ||| LMASK w k).testBit i =
      if i < k then w.testBit i
      else if i < k + b then v.testBit (i - k)
      else (w.testBit i || (decide (i < 64) && v.testBit (i - k))) := by
  rw [Nat.testBit_or, Nat.testBit_or, testBit_HMASK _ _ _,
    testBit_LMASK _ _ _ (by omega), Nat.testBit_mod_two_pow, Nat.testBit_shiftLeft]
  by_cases h1 : i < k
  · have : ¬ (64 - (64 - k - b) ≤ i) := by omega
    simp [h1, this]
  · by_cases h2 : i < k + b
    · have : ¬ (64 - (64 - k - b) ≤ i) := by omega
      have h3 : i < 64 := by omega
      have h4 : k ≤ i := by omega
      simp [h1, h2, this, h3, h4]
    · have : (64 - (64 - k - b) ≤ i) := by omega
      have h4 : k ≤ i := by omega
      by_cases h3 : i < 64
      · simp [h1, h2, this, h3, h4]
      · simp [h1, h2, this, h3, h4, testBit_high_of_lt w 64 i hw (by omega)]

/-- The bit `i` of the word a field writer produces, for a value that fits the width `b`. -/
theorem testBit_write_fit (w v k b i : Nat) (hkb : k + b ≤ 64) (hw : w < 2 ^ 64)
    (hv : v < 2 ^ b) :
    (HMASK w (64 - k - b) ||| (v <<< k) % 2 ^ 64 ||| LMASK w k).testBit i =
      if k ≤ i ∧ i < k + b then v.testBit (i - k) else w.testBit i := by
  rw [testBit_write w v k b i hkb hw]
  by_cases h1 : i < k
  · have : ¬ (k ≤ i ∧ i < k + b) := by omega
    simp [h1, this]
  · by_cases h2 : i < k + b
    · have : (k ≤ i ∧ i < k + b) := by omega
      simp [h1, h2, this]
    · have : ¬ (k ≤ i ∧ i < k + b) := by omega
      simp [h1, h2, this, testBit_high_of_lt v b (i - k) hv (by omega)]

theorem write_lt (w v k b : Nat) (hw : w < 2 ^ 64) :
    HMASK w (64 - k - b) ||| (v <<< k) % 2 ^ 64 ||| LMASK w k < 2 ^ 64 := by
  apply Nat.or_lt_two_pow (Nat.or_lt_two_pow _ _) _
  · unfold HMASK; exact Nat.and_lt_two_pow _ (Nat.mod_lt _ (by norm_num))
  · exact Nat.mod_lt _ (by norm_num)
  · unfold LMASK; exact lt_of_le_of_lt Nat.and_le_left hw

theorem testBit_read (w k b j : Nat) :
    ((w >>> k) % 2 ^ b).testBit j = (decide (j < b) && w.testBit (k + j)) := by
  rw [Nat.testBit_mod_two_pow, Nat.testBit_shiftRight]

/-- Reading back the span that was written gives the value written. -/
theorem read_write_same (w v k b : Nat) (hkb : k + b ≤ 64) (hw : w < 2 ^ 64) (hv : v < 2 ^ b) :
    ((HMASK w (64 - k - b) ||| (v <<< k) % 2 ^ 64 ||| LMASK w k) >>> k) % 2 ^ b = v := by
  apply Nat.eq_of_testBit_eq
  intro j
  rw [testBit_read, testBit_write_fit w v k b _ hkb hw hv]
  by_cases hj : j < b
  · have : k ≤ k + j ∧ k + j < k + b := by omega
    simp [hj, this]
  · simp [hj, testBit_high_of_lt v b j hv (by omega)]

/-- Reading a span disjoint from the one written gives what the word held before. -/
theorem read_write_other (w v k b k2 b2 : Nat) (hkb : k + b ≤ 64) (hw : w < 2 ^ 64)
    (hv : v < 2 ^ b) (hdis : k2 + b2 ≤ k ∨ k + b ≤ k2) :
    ((HMASK w (64 - k - b) ||| (v <<< k) % 2 ^ 64 ||| LMASK w k) >>> k2) % 2 ^ b2 =
      (w >>> k2) % 2 ^ b2 := by
  apply Nat.eq_of_testBit_eq
  intro j
  rw [testBit_read, testBit_read, testBit_write_fit w v k b _ hkb hw hv]
  by_cases hj : j < b2
  · have : ¬ (k ≤ k2 + j ∧ k2 + j < k + b) := by omega
    simp [hj, this]
  · simp [hj]

/-- The bits below the span written are kept, whatever the value written. -/
theorem low_write (w v k b m : Nat) (hkb : k + b ≤ 64) (hw : w < 2 ^ 64) (hm : m ≤ k) :
    (HMASK w (64 - k - b) ||| (v <<< k) % 2 ^ 64 ||| LMASK w k) % 2 ^ m = w % 2 ^ m := by
  apply Nat.eq_of_testBit_eq
  intro j
  rw [Nat.testBit_mod_two_pow, Nat.testBit_mod_two_pow, testBit_write w v k b _ hkb hw]
  by_cases hj : j < m
  · have : j < k := by omega
    simp [hj, this]
  · simp [hj]

theorem and_0xFF (x : Nat) : x &&& 0xFF = x % 2 ^ 8 := Nat.and_pow_two_sub_one_eq_mod x 8

theorem and_0x1 (x : Nat) : x &&& 0x1 = x % 2 ^ 1 := Nat.and_pow_two_sub_one_eq_mod x 1

theorem and_0xfff8 (x : Nat) (hx : x < 2 ^ 16) : x &&& 0xfff8 = x / 8 * 8 := by
  have h1 : (0xfff8 : Nat) = (2 ^ 13 - 1) <<< 3 := by norm_num [Nat.shiftLeft_eq]
  have h2 : x / 8 * 8 = (x >>> 3) <<< 3 := by
    rw [Nat.shiftLeft_eq, Nat.shiftRight_eq_div_pow]
  rw [h1, h2]
  apply Nat.eq_of_testBit_eq
  intro i
  rw [Nat.testBit_and, Nat.testBit_shiftLeft, Nat.testBit_shiftLeft, Nat.testBit_shiftRight,
    Nat.testBit_two_pow_sub_one]
  by_cases h3 : 3 ≤ i
  · have h4 : 3 + (i - 3) = i := by omega
    by_cases h5 : i - 3 < 13
    · simp [h3, h4, h5]
    · simp [h3, h4, h5, testBit_high_of_lt x 16 i hx (by omega)]
  · simp [h3]

/-! ## Cargo size table -/

/-- The table on the sizes from 5 to 480, in arithmetic form. -/
theorem cargo_lookup_size_mid (d : Nat) (h5 : 5 ≤ d) (h480 : d ≤ 480) :
    cargo_lookup_size d = (4 + (d - 1) / 8, (d - 1) / 8 * 8 + 8) := by
  have h1 : ¬ d < 3 := by omega
  have h2 : ¬ d < 5 := by omega
  have h3 : (d - 1) &&& 0xfff8 = (d - 1) / 8 * 8 :=
    and_0xfff8 (d - 1) (by norm_num; omega)
  have h4 : ((d - 1) / 8 * 8 + 8) % 2 ^ 32 = (d - 1) / 8 * 8 + 8 :=
    Nat.mod_eq_of_lt (by norm_num; omega)
  unfold cargo_lookup_size
  simp only [h1, h2, h480, if_true, if_false, h3, h4]
  congr 1
  omega

/-- C4: `cargo_lookup_size` is total and never shrinks a payload: for every desired size up to 480
the encoded size is at least the desired size, and above 480 the encoded size is 0. -/
theorem cargo_lookup_size_never_shrinks (d : Nat) :
    (d ≤ 480 → d ≤ (cargo_lookup_size d).2) ∧ (480 < d → (cargo_lookup_size d).2 = 0) := by
  constructor
  · intro h
    by_cases h5 : 5 ≤ d
    · rw [cargo_lookup_size_mid d h5 h]
      show d ≤ (d - 1) / 8 * 8 + 8
      omega
    · unfold cargo_lookup_size
      by_cases h3 : d < 3
      · simp [h3]
      · have : d < 5 := by omega
        simp only [h3, this, if_true, if_false]
        omega
  · intro h
    have h1 : ¬ d < 3 := by omega
    have h2 : ¬ d < 5 := by omega
    have h3 : ¬ d ≤ 480 := by omega
    unfold cargo_lookup_size
    simp only [h1, h2, h3, if_false]

theorem cargo_lookup_size_never_shrinks_witness :
    (7 ≤ (cargo_lookup_size 7).2 ∧ 480 ≤ (cargo_lookup_size 480).2) ∧
      (cargo_lookup_size 481).2 = 0 :=
  ⟨⟨(cargo_lookup_size_never_shrinks 7).1 (by decide),
    (cargo_lookup_size_never_shrinks 480).1 (by decide)⟩,
   (cargo_lookup_size_never_shrinks 481).2 (by decide)⟩

/-- C8, as the specification words it, fails at the desired size 5: the table gives 8, not 4
rounded up to a multiple of 8 plus 8 (which is 16), and the slack is 3 bytes, not a full block. -/
theorem cargo_lookup_size_round_up_counterexample :
    (cargo_lookup_size 5).2 = 8 ∧ round_up_8 (5 - 1) + 8 = 16 ∧
      (cargo_lookup_size 5).2 ≠ round_up_8 (5 - 1) + 8 ∧ ¬ (5 + 8 ≤ (cargo_lookup_size 5).2) := by
  decide

/-- C8 (amended): for every desired size from 5 to 480 the encoded size is the desired size
minus one rounded down to a multiple of 8, plus 8; it is at least the desired size with less
than one 8-byte block of slack, and the index is `4 + (encoded_size - 8) / 8`. -/
theorem cargo_lookup_size_round_down (d : Nat) (h5 : 5 ≤ d) (h480 : d ≤ 480) :
    (cargo_lookup_size d).2 = (d - 1) / 8 * 8 + 8 ∧
      d ≤ (cargo_lookup_size d).2 ∧ (cargo_lookup_size d).2 < d + 8 ∧
      (cargo_lookup_size d).1 = 4 + ((cargo_lookup_size d).2 - 8) / 8 := by
  rw [cargo_lookup_size_mid d h5 h480]
  refine ⟨rfl, ?_, ?_, ?_⟩
  · show d ≤ (d - 1) / 8 * 8 + 8
    omega
  · show (d - 1) / 8 * 8 + 8 < d + 8
    omega
  · show 4 + (d - 1) / 8 = 4 + ((d - 1) / 8 * 8 + 8 - 8) / 8
    omega

theorem cargo_lookup_size_round_down_witness :
    (cargo_lookup_size 13).2 = (13 - 1) / 8 * 8 + 8 ∧
      13 ≤ (cargo_lookup_size 13).2 ∧ (cargo_lookup_size 13).2 < 13 + 8 ∧
      (cargo_lookup_size 13).1 = 4 + ((cargo_lookup_size 13).2 - 8) / 8 :=
  cargo_lookup_size_round_down 13 (by decide) (by decide)

/-! ## Return code and cargo size of `app_data_encode` -/

/-- C5: `app_data_encode` returns the cargo-size error exactly when the desired size exceeds 480;
otherwise it returns 0 and outputs the encoded size of the cargo size table (481 fails, 480
succeeds with encoded size 480). -/
theorem app_data_encode_cargo_size_error (d : Nat) (fs : Option janus_app_fields)
    (size c0 : Nat) :
    ((app_data_encode d fs size c0).1 = janus_rc.JANUS_ERROR_CARGO_SIZE ↔ 480 < d) ∧
      (d ≤ 480 → (app_data_encode d fs size c0).1 = janus_rc.ok ∧
        (app_data_encode d fs size c0).2.1 = (cargo_lookup_size d).2) ∧
      (app_data_encode 481 fs size c0).1 = janus_rc.JANUS_ERROR_CARGO_SIZE ∧
      (app_data_encode 480 fs size c0).1 = janus_rc.ok ∧
      (app_data_encode 480 fs size c0).2.1 = 480 := by
  have hle : ∀ e : Nat, e ≤ 480 → (app_data_encode e fs size c0).1 = janus_rc.ok ∧
      (app_data_encode e fs size c0).2.1 = (cargo_lookup_size e).2 := by
    intro e he
    have h : ¬ e > 480 := by omega
    cases fs <;> simp [app_data_encode, app_fields_encode_cargo_size, h]
  have hgt : ∀ e : Nat, 480 < e →
      (app_data_encode e fs size c0).1 = janus_rc.JANUS_ERROR_CARGO_SIZE := by
    intro e he
    simp [app_data_encode, he]
  refine ⟨⟨?_, hgt d⟩, hle d, hgt 481 (by decide), (hle 480 (by decide)).1, ?_⟩
  · intro h
    by_contra hd
    have := (hle d (by omega)).1
    rw [this] at h
    exact absurd h (by decide)
  · rw [(hle 480 (by decide)).2]
    decide

theorem app_data_encode_cargo_size_error_witness :
    (app_data_encode 100 (some [⟨STATION_ID_LABEL, janus_value.str "42"⟩]) 34 7).1 = janus_rc.ok ∧
      (app_data_encode 100 (some [⟨STATION_ID_LABEL, janus_value.str "42"⟩]) 34 7).2.1 =
        (cargo_lookup_size 100).2 :=
  (app_data_encode_cargo_size_error 100 (some [⟨STATION_ID_LABEL, janus_value.str "42"⟩])
    34 7).2.1 (by decide)

/-! ## Decimal strings -/

theorem toNat_ofNat_digit (n : Nat) (h : n < 10) : (Char.ofNat (48 + n)).toNat = 48 + n := by
  interval_cases n <;> rfl

theorem isdigit_ofNat_digit (n : Nat) (h : n < 10) : isdigit (Char.ofNat (48 + n)) = true := by
  simp [isdigit, toNat_ofNat_digit n h]
  omega

/-- Parsing the digits that `utoa_digits` writes gives back the number. -/
theorem parse_digits_utoa_digits (fuel : Nat) :
    ∀ (n : Nat) (acc : List Char), n < fuel →
      parse_digits (utoa_digits fuel n acc) 0 = parse_digits acc n := by
  induction fuel with
  | zero => intro n acc h; omega
  | succ fuel ih =>
    intro n acc h
    unfold utoa_digits
    by_cases h10 : n < 10
    · simp only [h10, if_true]
      simp [parse_digits, isdigit_ofNat_digit n h10, toNat_ofNat_digit n h10]
    · simp only [h10, if_false]
      rw [ih (n / 10) _ (by omega)]
      have hm : n % 10 < 10 := Nat.mod_lt _ (by norm_num)
      simp only [parse_digits, isdigit_ofNat_digit _ hm, toNat_ofNat_digit _ hm, if_true]
      congr 1
      omega

theorem isdigit_utoa_digits (fuel : Nat) :
    ∀ (n : Nat) (acc : List Char), (∀ c ∈ acc, isdigit c = true) →
      ∀ c ∈ utoa_digits fuel n acc, isdigit c = true := by
  induction fuel with
  | zero => intro n acc h c hc; exact h c hc
  | succ fuel ih =>
    intro n acc h c hc
    unfold utoa_digits at hc
    by_cases h10 : n < 10
    · simp only [h10, if_true, List.mem_cons] at hc
      rcases hc with rfl | hc
      · exact isdigit_ofNat_digit n h10
      · exact h c hc
    · simp only [h10, if_false] at hc
      refine ih (n / 10) _ ?_ c hc
      intro c2 hc2
      rcases List.mem_cons.mp hc2 with rfl | hc2
      · exact isdigit_ofNat_digit _ (Nat.mod_lt _ (by norm_num))
      · exact h c2 hc2

theorem utoa_digits_ne_nil (fuel : Nat) :
    ∀ (n : Nat) (acc : List Char), n < fuel → utoa_digits fuel n acc ≠ [] := by
  induction fuel with
  | zero => intro n acc h; omega
  | succ fuel ih =>
    intro n acc h
    unfold utoa_digits
    by_cases h10 : n < 10
    · simp [h10]
    · simp only [h10, if_false]
      exact ih (n / 10) _ (by omega)

/-- The string `sprintf "%u"` writes for a number that fits an `int` is read back by the
encoder (`atoi`, then the conversion to 64 bits) as that number. -/
theorem entry_value_sprintf_u (name : String) (n : Nat) (hn : n < 2 ^ 31) :
    entry_value ⟨name, janus_value.str (sprintf_u n)⟩ = n := by
  have hall := isdigit_utoa_digits (n + 1) n [] (by simp)
  have hne := utoa_digits_ne_nil (n + 1) n [] (by omega)
  have hparse := parse_digits_utoa_digits (n + 1) n [] (by omega)
  have hc : c_str (janus_value.str (sprintf_u n)) = utoa_digits (n + 1) n [] := by
    simp only [c_str, sprintf_u]
    rw [List.takeWhile_eq_self_iff]
    intro c hc
    have := hall c hc
    simp [isdigit] at this
    simp
    omega
  unfold entry_value
  rw [hc]
  cases hl : utoa_digits (n + 1) n [] with
  | nil => exact absurd hl hne
  | cons c cs =>
    rw [hl] at hall hparse
    have hd : isdigit c = true := hall c (by simp)
    have hd2 : 48 ≤ c.toNat ∧ c.toNat ≤ 57 := by simpa [isdigit] using hd
    have hsp : isspace c = false := by
      simp [isspace]
      omega
    have h45 : ¬ c.toNat = 45 := by omega
    have h43 : ¬ c.toNat = 43 := by omega
    have hst : strtol (c :: cs) = (n : Int) := by
      have hp : parse_digits (c :: cs) 0 = n := by rw [hparse]; rfl
      unfold strtol
      simp only [List.dropWhile, hsp, h45, h43, if_false, hp]
      have : (n : Int) < 2 ^ 31 := by exact_mod_cast hn
      omega
    have hat : atoi (c :: cs) = (n : Int) := by
      unfold atoi
      rw [hst]
      have h1 : (n : Int) < 2 ^ 31 := by exact_mod_cast hn
      have h0 : (0 : Int) ≤ n := Int.ofNat_nonneg n
      rw [Int.bmod_def]
      have hm : (n : Int) % ((2 ^ 32 : Nat) : Int) = n := by
        apply Int.emod_eq_of_lt h0
        norm_num
        omega
      rw [hm]
      norm_num
      omega
    rw [hat]
    unfold int_to_uint64
    have h1 : (n : Int) < 2 ^ 31 := by exact_mod_cast hn
    have h0 : (0 : Int) ≤ n := Int.ofNat_nonneg n
    rw [Int.emod_eq_of_lt h0 (by omega)]
    simp

/-! ## `app_data_decode` -/

theorem ack_request_bit (w : Nat) :
    (if ((w >>> 9) &&& 0x1) % 2 ^ 8 = 0 then 0 else 1) = (w >>> 9) % 2 ^ 1 := by
  rw [and_0x1]
  generalize w >>> 9 = x
  norm_num
  split_ifs <;> omega

theorem cargo_lookup_index_id (index : Nat) : cargo_lookup_index index = index := by
  unfold cargo_lookup_index
  split_ifs with h
  · exact h.symm
  · rfl

/-- What `app_data_decode` returns, in terms of the spans read from the least significant bit. -/
theorem app_data_decode_eq (w size : Nat) (fs : janus_app_fields) :
    app_data_decode w size fs =
      (janus_rc.ok, w % 2 ^ 8,
        fs ++ [⟨STATION_ID_LABEL, janus_value.str (sprintf_u (lsb_field w 18 8))⟩,
               ⟨DESTINATION_ID_LABEL, janus_value.str (sprintf_u (lsb_field w 10 8))⟩,
               ⟨ACK_REQUEST, janus_value.str (sprintf_u (lsb_field w 9 1))⟩]) := by
  have h8 : w % 2 ^ 8 % 2 ^ 32 = w % 2 ^ 8 :=
    Nat.mod_eq_of_lt (lt_trans (Nat.mod_lt _ (by norm_num)) (by norm_num))
  simp only [app_data_decode, app_data_decode_station_id, app_data_decode_destination_id,
    app_data_decode_ack_request, app_data_decode_cargo_size, cargo_lookup_index_id,
    janus_app_fields_add_field, ack_request_bit, and_0xFF, lsb_field, Nat.mod_mod,
    List.append_assoc, List.cons_append, List.nil_append, h8]

/-- C10: for every word and every declared width `app_data_decode` returns 0 and appends exactly
three entries, StationIdentifier, DestinationIdentifier and AckRequest in this order, each the
decimal string of its value (the encoder reads it back as that value); the number of
ParameterSetIdentifier entries does not change; the cargo size index is the low 8 bits of the
word, `cargo_lookup_index` being the identity. -/
theorem app_data_decode_appends_three (w size : Nat) (fs : janus_app_fields) :
    app_data_decode w size fs =
      (janus_rc.ok, w % 2 ^ 8,
        fs ++ [⟨STATION_ID_LABEL, janus_value.str (sprintf_u ((w >>> 18) % 2 ^ 8))⟩,
               ⟨DESTINATION_ID_LABEL, janus_value.str (sprintf_u ((w >>> 10) % 2 ^ 8))⟩,
               ⟨ACK_REQUEST, janus_value.str (sprintf_u ((w >>> 9) % 2 ^ 1))⟩]) ∧
      entry_value ⟨STATION_ID_LABEL, janus_value.str (sprintf_u ((w >>> 18) % 2 ^ 8))⟩ =
        (w >>> 18) % 2 ^ 8 ∧
      entry_value ⟨DESTINATION_ID_LABEL, janus_value.str (sprintf_u ((w >>> 10) % 2 ^ 8))⟩ =
        (w >>> 10) % 2 ^ 8 ∧
      entry_value ⟨ACK_REQUEST, janus_value.str (sprintf_u ((w >>> 9) % 2 ^ 1))⟩ =
        (w >>> 9) % 2 ^ 1 ∧
      ((app_data_decode w size fs).2.2).length = fs.length + 3 ∧
      field_count PSET_ID_LABEL (app_data_decode w size fs).2.2 = field_count PSET_ID_LABEL fs ∧
      cargo_lookup_index (w % 2 ^ 8) = w % 2 ^ 8 ∧
      (app_data_decode w size fs).2.1 = w &&& 0xFF := by
  have hlt8 : ∀ x : Nat, x % 2 ^ 8 < 2 ^ 31 := fun x =>
    lt_trans (Nat.mod_lt _ (by norm_num)) (by norm_num)
  have hlt1 : ∀ x : Nat, x % 2 ^ 1 < 2 ^ 31 := fun x =>
    lt_trans (Nat.mod_lt _ (by norm_num)) (by norm_num)
  refine ⟨app_data_decode_eq w size fs, entry_value_sprintf_u _ _ (hlt8 _),
    entry_value_sprintf_u _ _ (hlt8 _), entry_value_sprintf_u _ _ (hlt1 _), ?_, ?_, ?_, ?_⟩
  · rw [app_data_decode_eq]
    simp
  · rw [app_data_decode_eq]
    have h1 : ¬ STATION_ID_LABEL = PSET_ID_LABEL := by decide
    have h2 : ¬ DESTINATION_ID_LABEL = PSET_ID_LABEL := by decide
    have h3 : ¬ ACK_REQUEST = PSET_ID_LABEL := by decide
    simp [field_count, List.countP_append, List.countP_cons, h1, h2, h3]
  · exact cargo_lookup_index_id _
  · rw [app_data_decode_eq, and_0xFF]

/-- C9, as the specification words it, fails on the word `2 ^ 18`: the decoder reports Station
Identifier 1, while the bits `[18, 26)` counted from the most significant bit are all zero. -/
theorem app_data_decode_msb_counterexample :
    (app_data_decode (2 ^ 18) 34 []).2.2 =
        [⟨STATION_ID_LABEL, janus_value.str "1"⟩, ⟨DESTINATION_ID_LABEL, janus_value.str "0"⟩,
         ⟨ACK_REQUEST, janus_value.str "0"⟩] ∧
      msb_field (2 ^ 18) 18 8 = 0 ∧
      (app_data_decode (2 ^ 18) 34 []).2.2 ≠
        [⟨STATION_ID_LABEL, janus_value.str (sprintf_u (msb_field (2 ^ 18) 18 8))⟩,
         ⟨DESTINATION_ID_LABEL, janus_value.str (sprintf_u (msb_field (2 ^ 18) 10 8))⟩,
         ⟨ACK_REQUEST, janus_value.str (sprintf_u (msb_field (2 ^ 18) 9 1))⟩] := by
  decide

/-- C9 (amended): for every word the values `app_data_decode` reports are the bits at the
positions of the field table numbered from the least significant bit (bit 0 = LSB): Station
Identifier is the 8 bits `[18, 26)`, Destination Identifier the 8 bits `[10, 18)` and Ack Request
the bit `[9, 10)`; counted from the most significant bit these are `[38, 46)`, `[46, 54)` and
`[54, 55)`. -/
theorem app_data_decode_lsb_positions (w size : Nat) (fs : janus_app_fields) :
    (app_data_decode w size fs).2.2 =
        fs ++ [⟨STATION_ID_LABEL, janus_value.str (sprintf_u (lsb_field w 18 8))⟩,
               ⟨DESTINATION_ID_LABEL, janus_value.str (sprintf_u (lsb_field w 10 8))⟩,
               ⟨ACK_REQUEST, janus_value.str (sprintf_u (lsb_field w 9 1))⟩] ∧
      (∀ o n j : Nat, (lsb_field w o n).testBit j = (decide (j < n) && w.testBit (o + j))) ∧
      lsb_field w 18 8 = msb_field w 38 8 ∧
      lsb_field w 10 8 = msb_field w 46 8 ∧
      lsb_field w 9 1 = msb_field w 54 1 := by
  refine ⟨by rw [app_data_decode_eq], ?_, rfl, rfl, rfl⟩
  intro o n j
  exact testBit_read w o n j

/-! ## `app_data_encode` -/

theorem encode_station_eq (w : Nat) (f : janus_app_field) :
    app_fields_encode_station_id w f =
      (HMASK w (64 - 18 - 8) ||| (entry_value f <<< 18) % 2 ^ 64 ||| LMASK w 18) := rfl

theorem encode_destination_eq (w : Nat) (f : janus_app_field) :
    app_fields_encode_destination_id w f =
      (HMASK w (64 - 10 - 8) ||| (entry_value f <<< 10) % 2 ^ 64 ||| LMASK w 10) := rfl

theorem encode_ack_eq (w : Nat) (f : janus_app_field) :
    app_fields_encode_ack_request w f =
      (HMASK w (64 - 9 - 1) ||| (entry_value f <<< 9) % 2 ^ 64 ||| LMASK w 9) := rfl

theorem encode_pset_eq (w : Nat) (f : janus_app_field) :
    app_fields_encode_pset_id w f =
      (HMASK w (64 - 6 - 12) ||| (entry_value f <<< 6) % 2 ^ 64 ||| LMASK w 6) := rfl

theorem app_data_encode_entry_lt (w : Nat) (f : janus_app_field) (hw : w < 2 ^ 64) :
    app_data_encode_entry w f < 2 ^ 64 := by
  unfold app_data_encode_entry
  split_ifs
  · rw [encode_station_eq]; exact write_lt w _ 18 8 hw
  · rw [encode_destination_eq]; exact write_lt w _ 10 8 hw
  · rw [encode_ack_eq]; exact write_lt w _ 9 1 hw
  · rw [encode_pset_eq]; exact write_lt w _ 6 12 hw
  · exact hw

theorem foldl_entry_lt (fs : janus_app_fields) :
    ∀ w : Nat, w < 2 ^ 64 → fs.foldl app_data_encode_entry w < 2 ^ 64 := by
  induction fs with
  | nil => intro w hw; exact hw
  | cons f rest ih =>
    intro w hw
    rw [List.foldl_cons]
    exact ih _ (app_data_encode_entry_lt w f hw)

/-- The result of `app_data_encode` on a collection, for a desired size within the table: the
word starts as the desired size itself and every entry is then applied in order. -/
theorem app_data_encode_some (d : Nat) (fs : janus_app_fields) (size c0 : Nat) (hd : d ≤ 480) :
    app_data_encode d (some fs) size c0 =
      (janus_rc.ok, (cargo_lookup_size d).2, fs.foldl app_data_encode_entry d) := by
  have h : ¬ d > 480 := by omega
  have h0 : HMASK 0 58 ||| d = d := by
    unfold HMASK
    rw [Nat.zero_and, Nat.zero_or]
  simp [app_data_encode, app_fields_encode_cargo_size, h, h0]

/-- An entry other than a Parameter Set Identifier keeps the low 9 bits of the word. -/
theorem app_data_encode_entry_low (w : Nat) (f : janus_app_field) (hw : w < 2 ^ 64)
    (hP : f.name ≠ PSET_ID_LABEL) : app_data_encode_entry w f % 2 ^ 9 = w % 2 ^ 9 := by
  unfold app_data_encode_entry
  split_ifs
  · rw [encode_station_eq]; exact low_write w _ 18 8 9 (by norm_num) hw (by norm_num)
  · rw [encode_destination_eq]; exact low_write w _ 10 8 9 (by norm_num) hw (by norm_num)
  · rw [encode_ack_eq]; exact low_write w _ 9 1 9 (by norm_num) hw (by norm_num)
  · rfl

theorem foldl_entry_low (fs : janus_app_fields) :
    ∀ w : Nat, w < 2 ^ 64 → (∀ f ∈ fs, f.name ≠ PSET_ID_LABEL) →
      fs.foldl app_data_encode_entry w % 2 ^ 9 = w % 2 ^ 9 := by
  induction fs with
  | nil => intro w _ _; rfl
  | cons f rest ih =>
    intro w hw hP
    rw [List.foldl_cons, ih _ (app_data_encode_entry_lt w f hw)
      (fun g hg => hP g (List.mem_cons_of_mem _ hg))]
    exact app_data_encode_entry_low w f hw (hP f (List.mem_cons_self _ _))

/-- C6, as the specification words it, fails at the desired size 4 with an empty collection: the
decoded cargo size index is 4, while the cargo size table assigns index 3 to the size 4. -/
theorem app_data_encode_index_counterexample :
    (app_data_decode (app_data_encode 4 (some []) 34 0).2.2 34 []).2.1 = 4 ∧
      (cargo_lookup_size 4).1 = 3 ∧
      (app_data_decode (app_data_encode 4 (some []) 34 0).2.2 34 []).2.1 ≠
        (cargo_lookup_size 4).1 := by
  decide

/-- C6 (amended): for every desired size up to 480 and every collection without a
ParameterSetIdentifier entry, `app_data_encode` leaves the desired size itself, not its index in
the cargo size table, in the low 9 bits of the word, so that for a desired size up to 255
`app_data_decode` of the word returns the desired size itself as the cargo size index. -/
theorem app_data_encode_size_bits (d : Nat) (fs : janus_app_fields) (size size2 c0 : Nat)
    (out : janus_app_fields) (hd : d ≤ 480) (hP : ∀ f ∈ fs, f.name ≠ PSET_ID_LABEL) :
    (app_data_encode d (some fs) size c0).2.2 % 2 ^ 9 = d ∧
      (d ≤ 255 →
        (app_data_decode (app_data_encode d (some fs) size c0).2.2 size2 out).2.1 = d) := by
  have hd64 : d < 2 ^ 64 := lt_of_le_of_lt hd (by norm_num)
  have hlow := foldl_entry_low fs d hd64 hP
  have hd9 : d % 2 ^ 9 = d := Nat.mod_eq_of_lt (lt_of_le_of_lt hd (by norm_num))
  rw [app_data_encode_some d fs size c0 hd, app_data_decode_eq]
  refine ⟨by rw [hlow, hd9], fun h255 => ?_⟩
  show fs.foldl app_data_encode_entry d % 2 ^ 8 = d
  have h1 : ∀ x : Nat, x % 2 ^ 8 = x % 2 ^ 9 % 2 ^ 8 := by
    intro x
    norm_num
  rw [h1 (fs.foldl app_data_encode_entry d), hlow, ← h1]
  exact Nat.mod_eq_of_lt (by omega)

theorem app_data_encode_size_bits_witness :
    (app_data_encode 200 (some [⟨STATION_ID_LABEL, janus_value.str "42"⟩]) 34 0).2.2 % 2 ^ 9 = 200 ∧
      (app_data_decode (app_data_encode 200 (some [⟨STATION_ID_LABEL, janus_value.str "42"⟩])
        34 0).2.2 34 []).2.1 = 200 :=
  ⟨(app_data_encode_size_bits 200 [⟨STATION_ID_LABEL, janus_value.str "42"⟩] 34 34 0 []
      (by decide) (by decide)).1,
   (app_data_encode_size_bits 200 [⟨STATION_ID_LABEL, janus_value.str "42"⟩] 34 34 0 []
      (by decide) (by decide)).2 (by decide)⟩

/-! ## One entry written on the all-zero word -/

theorem write_zero (m k x : Nat) : (HMASK 0 m ||| x ||| LMASK 0 k) = x := by
  unfold HMASK LMASK
  rw [Nat.zero_and, Nat.zero_and, Nat.zero_or, Nat.or_zero]

/-- On the all-zero word, one entry of value `v` that fits `2 ^ 46` bits gives the word
`v * 2 ^ k`, where `k` is the shift of the entry's writer. -/
theorem app_data_encode_single (f : janus_app_field) (size c0 : Nat)
    (hv : entry_value f < 2 ^ 46) :
    (f.name = STATION_ID_LABEL →
        (app_data_encode 0 (some [f]) size c0).2.2 = entry_value f * 2 ^ 18) ∧
      (f.name = DESTINATION_ID_LABEL →
        (app_data_encode 0 (some [f]) size c0).2.2 = entry_value f * 2 ^ 10) ∧
      (f.name = ACK_REQUEST →
        (app_data_encode 0 (some [f]) size c0).2.2 = entry_value f * 2 ^ 9) ∧
      (f.name = PSET_ID_LABEL →
        (app_data_encode 0 (some [f]) size c0).2.2 = entry_value f * 2 ^ 6) := by
  have hS : ¬ DESTINATION_ID_LABEL = STATION_ID_LABEL := by decide
  have hA1 : ¬ ACK_REQUEST = STATION_ID_LABEL := by decide
  have hA2 : ¬ ACK_REQUEST = DESTINATION_ID_LABEL := by decide
  have hP1 : ¬ PSET_ID_LABEL = STATION_ID_LABEL := by decide
  have hP2 : ¬ PSET_ID_LABEL = DESTINATION_ID_LABEL := by decide
  have hP3 : ¬ PSET_ID_LABEL = ACK_REQUEST := by decide
  rw [app_data_encode_some 0 [f] size c0 (by norm_num)]
  simp only [List.foldl_cons, List.foldl_nil]
  refine ⟨fun h => ?_, fun h => ?_, fun h => ?_, fun h => ?_⟩
  · simp only [app_data_encode_entry, h, if_true]
    rw [encode_station_eq, write_zero, Nat.shiftLeft_eq]
    exact Nat.mod_eq_of_lt (by omega)
  · simp only [app_data_encode_entry, h, hS, if_true, if_false]
    rw [encode_destination_eq, write_zero, Nat.shiftLeft_eq]
    exact Nat.mod_eq_of_lt (by omega)
  · simp only [app_data_encode_entry, h, hA1, hA2, if_true, if_false]
    rw [encode_ack_eq, write_zero, Nat.shiftLeft_eq]
    exact Nat.mod_eq_of_lt (by omega)
  · simp only [app_data_encode_entry, h, hP1, hP2, hP3, if_true, if_false]
    rw [encode_pset_eq, write_zero, Nat.shiftLeft_eq]
    exact Nat.mod_eq_of_lt (by omega)

/-- C7 at the failing input: a Parameter Set Identifier written alone on the all-zero word is not
kept apart from the other fields; the value 1 is decoded as cargo size index 64, and the value 24
as Destination Identifier 1 with Ack Request 1. -/
theorem pset_write_overlap_counterexample :
    (app_data_decode (app_data_encode 0
        (some [⟨PSET_ID_LABEL, janus_value.str "1"⟩]) 34 0).2.2 34 []).2.1 = 64 ∧
      (app_data_decode (app_data_encode 0
        (some [⟨PSET_ID_LABEL, janus_value.str "1"⟩]) 34 0).2.2 34 []).2.1 ≠ 0 ∧
      (app_data_decode (app_data_encode 0
        (some [⟨PSET_ID_LABEL, janus_value.str "24"⟩]) 34 0).2.2 34 []).2.2 =
        [⟨STATION_ID_LABEL, janus_value.str "0"⟩, ⟨DESTINATION_ID_LABEL, janus_value.str "1"⟩,
         ⟨ACK_REQUEST, janus_value.str "1"⟩] := by
  decide

/-- Where the single writes land: starting from the all-zero word (desired cargo size 0), a
single Station Identifier, Destination Identifier or Ack Request whose value fits its width
leaves the decoded value of every other field (and the cargo size index) equal to zero, while a
single Parameter Set Identifier of value `v` below 4096 is written in the bits 6 to 17, which are
decoded as Destination Identifier `v / 16`, Ack Request `v / 8 % 2` and cargo size index
`v % 4 * 64`. -/
theorem single_field_write_decoded (f : janus_app_field) (size size2 c0 : Nat)
    (out : janus_app_fields) :
    (f.name = STATION_ID_LABEL → entry_value f < 2 ^ 8 →
        app_data_decode (app_data_encode 0 (some [f]) size c0).2.2 size2 out =
          (janus_rc.ok, 0,
            out ++ [⟨STATION_ID_LABEL, janus_value.str (sprintf_u (entry_value f))⟩,
                    ⟨DESTINATION_ID_LABEL, janus_value.str (sprintf_u 0)⟩,
                    ⟨ACK_REQUEST, janus_value.str (sprintf_u 0)⟩])) ∧
      (f.name = DESTINATION_ID_LABEL → entry_value f < 2 ^ 8 →
        app_data_decode (app_data_encode 0 (some [f]) size c0).2.2 size2 out =
          (janus_rc.ok, 0,
            out ++ [⟨STATION_ID_LABEL, janus_value.str (sprintf_u 0)⟩,
                    ⟨DESTINATION_ID_LABEL, janus_value.str (sprintf_u (entry_value f))⟩,
                    ⟨ACK_REQUEST, janus_value.str (sprintf_u 0)⟩])) ∧
      (f.name = ACK_REQUEST → entry_value f < 2 ^ 1 →
        app_data_decode (app_data_encode 0 (some [f]) size c0).2.2 size2 out =
          (janus_rc.ok, 0,
            out ++ [⟨STATION_ID_LABEL, janus_value.str (sprintf_u 0)⟩,
                    ⟨DESTINATION_ID_LABEL, janus_value.str (sprintf_u 0)⟩,
                    ⟨ACK_REQUEST, janus_value.str (sprintf_u (entry_value f))⟩])) ∧
      (f.name = PSET_ID_LABEL → entry_value f < 2 ^ 12 →
        app_data_decode (app_data_encode 0 (some [f]) size c0).2.2 size2 out =
          (janus_rc.ok, entry_value f % 4 * 64,
            out ++ [⟨STATION_ID_LABEL, janus_value.str (sprintf_u 0)⟩,
                    ⟨DESTINATION_ID_LABEL, janus_value.str (sprintf_u (entry_value f / 16))⟩,
                    ⟨ACK_REQUEST, janus_value.str (sprintf_u (entry_value f / 8 % 2))⟩])) := by
  refine ⟨fun h hv => ?_, fun h hv => ?_, fun h hv => ?_, fun h hv => ?_⟩
  · rw [(app_data_encode_single f size c0 (by omega)).1 h, app_data_decode_eq]
    have e0 : entry_value f * 2 ^ 18 % 2 ^ 8 = 0 := by omega
    have e1 : lsb_field (entry_value f * 2 ^ 18) 18 8 = entry_value f := by
      simp only [lsb_field, Nat.shiftRight_eq_div_pow]; omega
    have e2 : lsb_field (entry_value f * 2 ^ 18) 10 8 = 0 := by
      simp only [lsb_field, Nat.shiftRight_eq_div_pow]; omega
    have e3 : lsb_field (entry_value f * 2 ^ 18) 9 1 = 0 := by
      simp only [lsb_field, Nat.shiftRight_eq_div_pow]; omega
    rw [e0, e1, e2, e3]
  · rw [(app_data_encode_single f size c0 (by omega)).2.1 h, app_data_decode_eq]
    have e0 : entry_value f * 2 ^ 10 % 2 ^ 8 = 0 := by omega
    have e1 : lsb_field (entry_value f * 2 ^ 10) 18 8 = 0 := by
      simp only [lsb_field, Nat.shiftRight_eq_div_pow]; omega
    have e2 : lsb_field (entry_value f * 2 ^ 10) 10 8 = entry_value f := by
      simp only [lsb_field, Nat.shiftRight_eq_div_pow]; omega
    have e3 : lsb_field (entry_value f * 2 ^ 10) 9 1 = 0 := by
      simp only [lsb_field, Nat.shiftRight_eq_div_pow]; omega
    rw [e0, e1, e2, e3]
  · rw [(app_data_encode_single f size c0 (by omega)).2.2.1 h, app_data_decode_eq]
    have e0 : entry_value f * 2 ^ 9 % 2 ^ 8 = 0 := by omega
    have e1 : lsb_field (entry_value f * 2 ^ 9) 18 8 = 0 := by
      simp only [lsb_field, Nat.shiftRight_eq_div_pow]; omega
    have e2 : lsb_field (entry_value f * 2 ^ 9) 10 8 = 0 := by
      simp only [lsb_field, Nat.shiftRight_eq_div_pow]; omega
    have e3 : lsb_field (entry_value f * 2 ^ 9) 9 1 = entry_value f := by
      simp only [lsb_field, Nat.shiftRight_eq_div_pow]; omega
    rw [e0, e1, e2, e3]
  · rw [(app_data_encode_single f size c0 (by omega)).2.2.2 h, app_data_decode_eq]
    have e0 : entry_value f * 2 ^ 6 % 2 ^ 8 = entry_value f % 4 * 64 := by omega
    have e1 : lsb_field (entry_value f * 2 ^ 6) 18 8 = 0 := by
      simp only [lsb_field, Nat.shiftRight_eq_div_pow]; omega
    have e2 : lsb_field (entry_value f * 2 ^ 6) 10 8 = entry_value f / 16 := by
      simp only [lsb_field, Nat.shiftRight_eq_div_pow]; omega
    have e3 : lsb_field (entry_value f * 2 ^ 6) 9 1 = entry_value f / 8 % 2 := by
      simp only [lsb_field, Nat.shiftRight_eq_div_pow]; omega
    rw [e0, e1, e2, e3]

theorem single_field_write_decoded_witness :
    app_data_decode (app_data_encode 0
        (some [⟨STATION_ID_LABEL, janus_value.str "42"⟩]) 34 0).2.2 34 [] =
      (janus_rc.ok, 0,
        [] ++ [⟨STATION_ID_LABEL, janus_value.str
                (sprintf_u (entry_value ⟨STATION_ID_LABEL, janus_value.str "42"⟩))⟩,
               ⟨DESTINATION_ID_LABEL, janus_value.str (sprintf_u 0)⟩,
               ⟨ACK_REQUEST, janus_value.str (sprintf_u 0)⟩]) :=
  (single_field_write_decoded ⟨STATION_ID_LABEL, janus_value.str "42"⟩ 34 34 0 []).1
    rfl (by decide)

/-! ## Round trip of the three decoded fields -/

/-- What one entry does to the three spans the decoder reads, when the entry is not a Parameter
Set Identifier and its value fits the width of its field. -/
theorem app_data_encode_entry_read (w : Nat) (f : janus_app_field) (hw : w < 2 ^ 64)
    (hP : f.name ≠ PSET_ID_LABEL)
    (hs : f.name = STATION_ID_LABEL → entry_value f < 2 ^ 8)
    (hd : f.name = DESTINATION_ID_LABEL → entry_value f < 2 ^ 8)
    (ha : f.name = ACK_REQUEST → entry_value f < 2 ^ 1) :
    lsb_field (app_data_encode_entry w f) 18 8 =
        (if f.name = STATION_ID_LABEL then entry_value f else lsb_field w 18 8) ∧
      lsb_field (app_data_encode_entry w f) 10 8 =
        (if f.name = DESTINATION_ID_LABEL then entry_value f else lsb_field w 10 8) ∧
      lsb_field (app_data_encode_entry w f) 9 1 =
        (if f.name = ACK_REQUEST then entry_value f else lsb_field w 9 1) := by
  have hS : ¬ DESTINATION_ID_LABEL = STATION_ID_LABEL := by decide
  have hA1 : ¬ ACK_REQUEST = STATION_ID_LABEL := by decide
  have hA2 : ¬ ACK_REQUEST = DESTINATION_ID_LABEL := by decide
  unfold lsb_field
  by_cases h1 : f.name = STATION_ID_LABEL
  · have h2 : ¬ f.name = DESTINATION_ID_LABEL := by rw [h1]; exact fun h => hS h.symm
    have h3 : ¬ f.name = ACK_REQUEST := by rw [h1]; exact fun h => hA1 h.symm
    have he : app_data_encode_entry w f = app_fields_encode_station_id w f := by
      simp only [app_data_encode_entry, if_pos h1]
    rw [he, encode_station_eq, if_pos h1, if_neg h2, if_neg h3]
    exact ⟨read_write_same w _ 18 8 (by norm_num) hw (hs h1),
      read_write_other w _ 18 8 10 8 (by norm_num) hw (hs h1) (by norm_num),
      read_write_other w _ 18 8 9 1 (by norm_num) hw (hs h1) (by norm_num)⟩
  · by_cases h2 : f.name = DESTINATION_ID_LABEL
    · have h3 : ¬ f.name = ACK_REQUEST := by rw [h2]; exact fun h => hA2 h.symm
      have he : app_data_encode_entry w f = app_fields_encode_destination_id w f := by
        simp only [app_data_encode_entry, if_neg h1, if_pos h2]
      rw [he, encode_destination_eq, if_neg h1, if_pos h2, if_neg h3]
      exact ⟨read_write_other w _ 10 8 18 8 (by norm_num) hw (hd h2) (by norm_num),
        read_write_same w _ 10 8 (by norm_num) hw (hd h2),
        read_write_other w _ 10 8 9 1 (by norm_num) hw (hd h2) (by norm_num)⟩
    · by_cases h3 : f.name = ACK_REQUEST
      · have he : app_data_encode_entry w f = app_fields_encode_ack_request w f := by
          simp only [app_data_encode_entry, if_neg h1, if_neg h2, if_pos h3]
        rw [he, encode_ack_eq, if_neg h1, if_neg h2, if_pos h3]
        exact ⟨read_write_other w _ 9 1 18 8 (by norm_num) hw (ha h3) (by norm_num),
          read_write_other w _ 9 1 10 8 (by norm_num) hw (ha h3) (by norm_num),
          read_write_same w _ 9 1 (by norm_num) hw (ha h3)⟩
      · have he : app_data_encode_entry w f = w := by
          simp only [app_data_encode_entry, if_neg h1, if_neg h2, if_neg h3, if_neg hP]
        rw [he, if_neg h1, if_neg h2, if_neg h3]
        exact ⟨rfl, rfl, rfl⟩

/-- A span on which every entry acts as a possible overwrite by the entries named `L` holds,
after the whole collection, the value of the only entry named `L`, or what it held before. -/
theorem foldl_entry_read (L : String) (k b : Nat) (ok : janus_app_field → Prop)
    (hstep : ∀ (w : Nat) (f : janus_app_field), w < 2 ^ 64 → ok f →
      lsb_field (app_data_encode_entry w f) k b =
        (if f.name = L then entry_value f else lsb_field w k b))
    (fs : janus_app_fields) :
    ∀ w : Nat, w < 2 ^ 64 → (∀ f ∈ fs, ok f) → field_count L fs ≤ 1 →
      lsb_field (fs.foldl app_data_encode_entry w) k b =
        (if field_count L fs = 0 then lsb_field w k b else field_value L fs) := by
  induction fs with
  | nil => intro w _ _ _; simp [field_count]
  | cons f rest ih =>
    intro w hw hok hc
    have hokf := hok f (List.mem_cons_self _ _)
    rw [List.foldl_cons]
    by_cases hn : f.name = L
    · have hc1 : field_count L (f :: rest) = field_count L rest + 1 := by
        simp [field_count, List.countP_cons, hn]
      have hc0 : field_count L rest = 0 := by omega
      rw [ih _ (app_data_encode_entry_lt w f hw)
        (fun g hg => hok g (List.mem_cons_of_mem _ hg)) (by omega), hstep w f hw hokf]
      have hv : field_value L (f :: rest) = entry_value f := by
        simp [field_value, List.find?_cons, hn]
      simp [hc0, hc1, hn, hv]
    · have hc1 : field_count L (f :: rest) = field_count L rest := by
        simp [field_count, List.countP_cons, hn]
      rw [ih _ (app_data_encode_entry_lt w f hw)
        (fun g hg => hok g (List.mem_cons_of_mem _ hg)) (by omega), hstep w f hw hokf]
      have hv : field_value L (f :: rest) = field_value L rest := by
        simp [field_value, List.find?_cons, hn]
      simp [hc1, hn, hv]

/-- In a collection holding at most one entry named `L`, that entry gives the field's value. -/
theorem field_value_of_mem (L : String) (fs : janus_app_fields) :
    field_count L fs ≤ 1 → ∀ f ∈ fs, f.name = L → field_value L fs = entry_value f := by
  induction fs with
  | nil => intro _ f hf; simp at hf
  | cons g rest ih =>
    intro hc f hf hn
    by_cases hg : g.name = L
    · have hc1 : field_count L (g :: rest) = field_count L rest + 1 := by
        simp [field_count, List.countP_cons, hg]
      have hc0 : field_count L rest = 0 := by omega
      have hv : field_value L (g :: rest) = entry_value g := by
        simp [field_value, List.find?_cons, hg]
      rcases List.mem_cons.mp hf with rfl | hf
      · exact hv
      · exfalso
        have := List.countP_eq_zero.mp hc0 f hf
        simp [hn] at this
    · have hc1 : field_count L (g :: rest) = field_count L rest := by
        simp [field_count, List.countP_cons, hg]
      have hv : field_value L (g :: rest) = field_value L rest := by
        simp [field_value, List.find?_cons, hg]
      rcases List.mem_cons.mp hf with rfl | hf
      · exact absurd hn hg
      · rw [hv]
        exact ih (by omega) f hf hn

theorem field_value_of_count_zero (L : String) (fs : janus_app_fields)
    (h : field_count L fs = 0) : field_value L fs = 0 := by
  have h0 := List.countP_eq_zero.mp h
  have : fs.find? (fun f => decide (f.name = L)) = none := by
    rw [List.find?_eq_none]
    intro f hf
    exact h0 f hf
  simp [field_value, this]

theorem lsb_field_of_small (d : Nat) (hd : d ≤ 480) :
    lsb_field d 18 8 = 0 ∧ lsb_field d 10 8 = 0 ∧ lsb_field d 9 1 = 0 := by
  simp only [lsb_field, Nat.shiftRight_eq_div_pow]
  omega

/-- C1: for every desired cargo size up to 480 and every collection holding at most one entry
each of StationIdentifier (value 0..255), DestinationIdentifier (value 0..255) and AckRequest
(value 0 or 1), in any order, with no ParameterSetIdentifier entry and any number of unrecognised
entries, `app_data_encode` succeeds and `app_data_decode` of the resulting word succeeds and
appends the three entries with the values of the collection, as decimal strings that read back as
these values, with 0 for each field that is absent. -/
theorem app_data_roundtrip (d : Nat) (fs : janus_app_fields) (size size2 c0 : Nat)
    (out : janus_app_fields) (hd : d ≤ 480)
    (hS : field_count STATION_ID_LABEL fs ≤ 1)
    (hD : field_count DESTINATION_ID_LABEL fs ≤ 1)
    (hA : field_count ACK_REQUEST fs ≤ 1)
    (hP : field_count PSET_ID_LABEL fs = 0)
    (hs : field_value STATION_ID_LABEL fs ≤ 255)
    (ht : field_value DESTINATION_ID_LABEL fs ≤ 255)
    (ha : field_value ACK_REQUEST fs ≤ 1) :
    (app_data_encode d (some fs) size c0).1 = janus_rc.ok ∧
      (app_data_decode (app_data_encode d (some fs) size c0).2.2 size2 out).1 = janus_rc.ok ∧
      (app_data_decode (app_data_encode d (some fs) size c0).2.2 size2 out).2.2 =
        out ++ [⟨STATION_ID_LABEL,
                  janus_value.str (sprintf_u (field_value STATION_ID_LABEL fs))⟩,
                ⟨DESTINATION_ID_LABEL,
                  janus_value.str (sprintf_u (field_value DESTINATION_ID_LABEL fs))⟩,
                ⟨ACK_REQUEST, janus_value.str (sprintf_u (field_value ACK_REQUEST fs))⟩] ∧
      entry_value ⟨STATION_ID_LABEL,
          janus_value.str (sprintf_u (field_value STATION_ID_LABEL fs))⟩ =
        field_value STATION_ID_LABEL fs ∧
      entry_value ⟨DESTINATION_ID_LABEL,
          janus_value.str (sprintf_u (field_value DESTINATION_ID_LABEL fs))⟩ =
        field_value DESTINATION_ID_LABEL fs ∧
      entry_value ⟨ACK_REQUEST, janus_value.str (sprintf_u (field_value ACK_REQUEST fs))⟩ =
        field_value ACK_REQUEST fs := by
  have hd64 : d < 2 ^ 64 := lt_of_le_of_lt hd (by norm_num)
  have hok : ∀ f ∈ fs, f.name ≠ PSET_ID_LABEL ∧
      (f.name = STATION_ID_LABEL → entry_value f < 2 ^ 8) ∧
      (f.name = DESTINATION_ID_LABEL → entry_value f < 2 ^ 8) ∧
      (f.name = ACK_REQUEST → entry_value f < 2 ^ 1) := by
    intro f hf
    refine ⟨?_, fun h => ?_, fun h => ?_, fun h => ?_⟩
    · have := List.countP_eq_zero.mp hP f hf
      simpa using this
    · rw [← field_value_of_mem _ fs hS f hf h]; omega
    · rw [← field_value_of_mem _ fs hD f hf h]; omega
    · rw [← field_value_of_mem _ fs hA f hf h]; omega
  have h0 := lsb_field_of_small d hd
  have rS := foldl_entry_read STATION_ID_LABEL 18 8 _
    (fun w f hw (h : _ ∧ _ ∧ _ ∧ _) =>
      (app_data_encode_entry_read w f hw h.1 h.2.1 h.2.2.1 h.2.2.2).1) fs d hd64 hok hS
  have rD := foldl_entry_read DESTINATION_ID_LABEL 10 8 _
    (fun w f hw (h : _ ∧ _ ∧ _ ∧ _) =>
      (app_data_encode_entry_read w f hw h.1 h.2.1 h.2.2.1 h.2.2.2).2.1) fs d hd64 hok hD
  have rA := foldl_entry_read ACK_REQUEST 9 1 _
    (fun w f hw (h : _ ∧ _ ∧ _ ∧ _) =>
      (app_data_encode_entry_read w f hw h.1 h.2.1 h.2.2.1 h.2.2.2).2.2) fs d hd64 hok hA
  have eS : lsb_field (fs.foldl app_data_encode_entry d) 18 8 =
      field_value STATION_ID_LABEL fs := by
    rw [rS, h0.1]
    split_ifs with h
    · exact (field_value_of_count_zero _ fs h).symm
    · rfl
  have eD : lsb_field (fs.foldl app_data_encode_entry d) 10 8 =
      field_value DESTINATION_ID_LABEL fs := by
    rw [rD, h0.2.1]
    split_ifs with h
    · exact (field_value_of_count_zero _ fs h).symm
    · rfl
  have eA : lsb_field (fs.foldl app_data_encode_entry d) 9 1 =
      field_value ACK_REQUEST fs := by
    rw [rA, h0.2.2]
    split_ifs with h
    · exact (field_value_of_count_zero _ fs h).symm
    · rfl
  rw [app_data_encode_some d fs size c0 hd, app_data_decode_eq]
  refine ⟨rfl, rfl, ?_, entry_value_sprintf_u _ _ (by omega),
    entry_value_sprintf_u _ _ (by omega), entry_value_sprintf_u _ _ (by omega)⟩
  show out ++ _ = out ++ _
  rw [eS, eD, eA]

theorem app_data_roundtrip_witness :
    (app_data_decode (app_data_encode 0
        (some [⟨STATION_ID_LABEL, janus_value.str "42"⟩]) 34 0).2.2 34 []).2.2 =
      [⟨STATION_ID_LABEL, janus_value.str "42"⟩, ⟨DESTINATION_ID_LABEL, janus_value.str "0"⟩,
       ⟨ACK_REQUEST, janus_value.str "0"⟩] ∧
    (app_data_decode (app_data_encode 300
        (some [⟨"Depth", janus_value.str "9"⟩, ⟨ACK_REQUEST, janus_value.str "1"⟩,
               ⟨STATION_ID_LABEL, janus_value.str "42"⟩,
               ⟨DESTINATION_ID_LABEL, janus_value.str "7"⟩]) 34 0).2.2 34 []).2.2 =
      [⟨STATION_ID_LABEL, janus_value.str "42"⟩, ⟨DESTINATION_ID_LABEL, janus_value.str "7"⟩,
       ⟨ACK_REQUEST, janus_value.str "1"⟩] :=
  ⟨(app_data_roundtrip 0 [⟨STATION_ID_LABEL, janus_value.str "42"⟩] 34 34 0 []
      (by decide) (by decide) (by decide) (by decide) (by decide) (by decide) (by decide)
      (by decide)).2.2.1,
   (app_data_roundtrip 300
      [⟨"Depth", janus_value.str "9"⟩, ⟨ACK_REQUEST, janus_value.str "1"⟩,
       ⟨STATION_ID_LABEL, janus_value.str "42"⟩, ⟨DESTINATION_ID_LABEL, janus_value.str "7"⟩]
      34 34 0 []
      (by decide) (by decide) (by decide) (by decide) (by decide) (by decide) (by decide)
      (by decide)).2.2.1⟩

/-! ## Cargo: CRC check -/

theorem sub_u32_of_le (a b : Nat) (hb : b ≤ a) (ha : a < 2 ^ 32) : sub_u32 a b = a - b := by
  unfold sub_u32
  have h1 : a % 2 ^ 32 = a := Nat.mod_eq_of_lt ha
  have h2 : b % 2 ^ 32 = b := Nat.mod_eq_of_lt (lt_of_le_of_lt hb ha)
  rw [h1, h2]
  omega

/-- The transmitted CRC that `janus_packet_get_crc16` reads from a buffer holding `cargo_size`
bytes. -/
theorem janus_packet_get_crc16_eq (cargo : List Nat) (cs : Nat) (h2 : 2 ≤ cs)
    (hlen : cs ≤ cargo.length) (h32 : cs < 2 ^ 32) :
    janus_packet_get_crc16 cargo cs = some (transmitted_crc cargo cs) := by
  have e2 : sub_u32 cs CRC_BYTES = cs - 2 := sub_u32_of_le cs 2 h2 h32
  have e1 : sub_u32 cs 1 = cs - 1 := sub_u32_of_le cs 1 (by omega) h32
  have g2 : cargo[cs - 2]? = some (cargo.getD (cs - 2) 0) := by
    rw [List.getD_eq_getElem?_getD, List.getElem?_eq_getElem (by omega)]
    rfl
  have g1 : cargo[cs - 1]? = some (cargo.getD (cs - 1) 0) := by
    rw [List.getD_eq_getElem?_getD, List.getElem?_eq_getElem (by omega)]
    rfl
  unfold janus_packet_get_crc16 transmitted_crc
  rw [e2, e1, g2, g1]
  generalize cargo.getD (cs - 2) 0 = a
  generalize cargo.getD (cs - 1) 0 = b
  simp only [Nat.shiftLeft_eq, Option.some.injEq]
  omega

theorem utoa_digits_succ_lt (fuel n : Nat) (acc : List Char) (h : n < 10) :
    utoa_digits (fuel + 1) n acc = Char.ofNat (48 + n) :: acc := by
  simp [utoa_digits, h]

theorem utoa_digits_succ_ge (fuel n : Nat) (acc : List Char) (h : ¬ n < 10) :
    utoa_digits (fuel + 1) n acc =
      utoa_digits fuel (n / 10) (Char.ofNat (48 + n % 10) :: acc) := by
  simp [utoa_digits, h]

theorem utoa_digits_length_ge (fuel : Nat) :
    ∀ (n : Nat) (acc : List Char), acc.length ≤ (utoa_digits fuel n acc).length := by
  induction fuel with
  | zero => intro n acc; exact le_refl _
  | succ fuel ih =>
    intro n acc
    by_cases h : n < 10
    · rw [utoa_digits_succ_lt fuel n acc h, List.length_cons]
      omega
    · rw [utoa_digits_succ_ge fuel n acc h]
      have := ih (n / 10) (Char.ofNat (48 + n % 10) :: acc)
      rw [List.length_cons] at this
      omega

/-- A size of 1000 or more has at least four decimal digits. -/
theorem utoa_digits_length_gt (n : Nat) (h : 1000 ≤ n) :
    4 ≤ (utoa_digits (n + 1) n []).length := by
  have h1 : ¬ n < 10 := by omega
  rw [utoa_digits_succ_ge n n [] h1]
  obtain ⟨m, rfl⟩ : ∃ m, n = m + 1 := ⟨n - 1, by omega⟩
  have h2 : ¬ (m + 1) / 10 < 10 := by omega
  rw [utoa_digits_succ_ge m _ _ h2]
  obtain ⟨k, rfl⟩ : ∃ k, m = k + 1 := ⟨m - 1, by omega⟩
  have h3 : ¬ (k + 1 + 1) / 10 / 10 < 10 := by omega
  rw [utoa_digits_succ_ge k _ _ h3]
  obtain ⟨j, rfl⟩ : ∃ j, k = j + 1 := ⟨k - 1, by omega⟩
  by_cases h4 : (j + 1 + 1 + 1) / 10 / 10 / 10 < 10
  · rw [utoa_digits_succ_lt j _ _ h4]
    simp
  · rw [utoa_digits_succ_ge j _ _ h4]
    have := utoa_digits_length_ge j ((j + 1 + 1 + 1) / 10 / 10 / 10 / 10)
      (Char.ofNat (48 + (j + 1 + 1 + 1) / 10 / 10 / 10 % 10) ::
        [Char.ofNat (48 + (j + 1 + 1 + 1) / 10 / 10 % 10),
          Char.ofNat (48 + (j + 1 + 1 + 1) / 10 % 10), Char.ofNat (48 + (j + 1 + 1 + 1) % 10)])
    simpa using this

/-- The characters of a size of 1000 or more do not leave room for the terminating NUL. -/
theorem sprintf_3u_length_gt (n : Nat) (h : 1000 ≤ n) : 4 ≤ (sprintf_3u n).length := by
  have hgt := utoa_digits_length_gt n h
  show 4 ≤ (List.replicate (3 - (utoa_digits (n + 1) n []).length) (Char.ofNat 32) ++
    utoa_digits (n + 1) n []).length
  rw [List.length_append, List.length_replicate]
  omega

/-- On a size of 1000 or more `cargo_decode` has no defined result: `sprintf` writes five bytes
or more into the four bytes of `size_string`. -/
theorem cargo_decode_size_string_overrun (crc : List Nat → Nat → Nat → Nat) (cargo : List Nat)
    (cs : Nat) (fs : Option janus_app_fields) (h1000 : 1000 ≤ cs) (h32 : cs < 2 ^ 32) :
    cargo_decode crc cargo cs fs = none := by
  have hm : cs % 2 ^ 32 = cs := Nat.mod_eq_of_lt h32
  have hcap : (sprintf_3u cs).length + 1 > 4 := by
    have := sprintf_3u_length_gt cs h1000
    omega
  unfold cargo_decode
  simp only [hm, hcap, if_true]

theorem cargo_decode_size_string_overrun_witness :
    cargo_decode (fun data _ seed => 7 * data.sum + seed + 40000) [72, 105, 33, 161, 254] 1000
      none = none :=
  cargo_decode_size_string_overrun (fun data _ seed => 7 * data.sum + seed + 40000)
    [72, 105, 33, 161, 254] 1000 none (by decide) (by decide)

theorem cargo_lookup_size_lt3 (d : Nat) (h : d < 3) : cargo_lookup_size d = (d, d) := by
  simp [cargo_lookup_size, h]

theorem cargo_lookup_size_3_4 (d : Nat) (h3 : 3 ≤ d) (h5 : d < 5) :
    cargo_lookup_size d = (3, 4) := by
  have h : ¬ d < 3 := by omega
  simp [cargo_lookup_size, h, h5]

/-- C19: for a desired size `d` from 5 to 480, the encoded size is a multiple of 8, is at least
`d`, is the least such multiple, exceeds `d` by at most 7, equals `d` when `d` is itself a
multiple of 8, and the index is `3 + encoded_size / 8`, which is at most 63. -/
theorem cargo_lookup_size_least_multiple (d : Nat) (h5 : 5 ≤ d) (h480 : d ≤ 480) :
    8 ∣ (cargo_lookup_size d).2 ∧ d ≤ (cargo_lookup_size d).2 ∧
      (∀ m : Nat, 8 ∣ m → d ≤ m → (cargo_lookup_size d).2 ≤ m) ∧
      (cargo_lookup_size d).2 - d ≤ 7 ∧
      (8 ∣ d → (cargo_lookup_size d).2 = d) ∧
      (cargo_lookup_size d).1 = 3 + (cargo_lookup_size d).2 / 8 ∧
      (cargo_lookup_size d).1 ≤ 63 := by
  rw [cargo_lookup_size_mid d h5 h480]
  refine ⟨⟨(d - 1) / 8 + 1, by ring⟩, by omega, ?_, by omega, ?_, by omega, by omega⟩
  · rintro m ⟨c, rfl⟩ hm
    simp only
    omega
  · rintro ⟨c, rfl⟩
    simp only
    omega

theorem cargo_lookup_size_least_multiple_witness :
    5 ≤ 9 ∧ 9 ≤ 480 ∧ 8 ∣ (cargo_lookup_size 9).2 ∧ 9 ≤ (cargo_lookup_size 9).2 ∧
      (∀ m : Nat, 8 ∣ m → 9 ≤ m → (cargo_lookup_size 9).2 ≤ m) ∧
      (cargo_lookup_size 9).2 - 9 ≤ 7 ∧
      (8 ∣ 9 → (cargo_lookup_size 9).2 = 9) ∧
      (cargo_lookup_size 9).1 = 3 + (cargo_lookup_size 9).2 / 8 ∧
      (cargo_lookup_size 9).1 ≤ 63 :=
  ⟨by decide, by decide, cargo_lookup_size_least_multiple 9 (by decide) (by decide)⟩

/-- C15: the size table is monotone on the sizes up to 480: a larger desired size has an index
and an encoded size that are at least as large, and two desired sizes have the same index exactly
when they have the same encoded size. -/
theorem cargo_lookup_size_monotone (d1 d2 : Nat) (h12 : d1 ≤ d2) (h480 : d2 ≤ 480) :
    (cargo_lookup_size d1).1 ≤ (cargo_lookup_size d2).1 ∧
      (cargo_lookup_size d1).2 ≤ (cargo_lookup_size d2).2 ∧
      ((cargo_lookup_size d1).1 = (cargo_lookup_size d2).1 ↔
        (cargo_lookup_size d1).2 = (cargo_lookup_size d2).2) := by
  have key : ∀ d : Nat, d ≤ 480 →
      (d < 3 ∧ cargo_lookup_size d = (d, d)) ∨
      (3 ≤ d ∧ d < 5 ∧ cargo_lookup_size d = (3, 4)) ∨
      (5 ≤ d ∧ cargo_lookup_size d = (4 + (d - 1) / 8, (d - 1) / 8 * 8 + 8)) := by
    intro d hd
    by_cases h3 : d < 3
    · exact Or.inl ⟨h3, cargo_lookup_size_lt3 d h3⟩
    · by_cases h5 : d < 5
      · exact Or.inr (Or.inl ⟨by omega, h5, cargo_lookup_size_3_4 d (by omega) h5⟩)
      · exact Or.inr (Or.inr ⟨by omega, cargo_lookup_size_mid d (by omega) hd⟩)
  rcases key d1 (by omega) with ⟨a1, e1⟩ | ⟨a1, b1, e1⟩ | ⟨a1, e1⟩ <;>
    rcases key d2 h480 with ⟨a2, e2⟩ | ⟨a2, b2, e2⟩ | ⟨a2, e2⟩ <;>
    rw [e1, e2] <;> dsimp only <;>
    exact ⟨by omega, by omega, ⟨fun h => by omega, fun h => by omega⟩⟩

theorem cargo_lookup_size_monotone_witness :
    4 ≤ 9 ∧ 9 ≤ 480 ∧ (cargo_lookup_size 4).1 ≤ (cargo_lookup_size 9).1 ∧
      (cargo_lookup_size 4).2 ≤ (cargo_lookup_size 9).2 ∧
      ((cargo_lookup_size 4).1 = (cargo_lookup_size 9).1 ↔
        (cargo_lookup_size 4).2 = (cargo_lookup_size 9).2) :=
  ⟨by decide, by decide, cargo_lookup_size_monotone 4 9 (by decide) (by decide)⟩

/-! ## Cargo: the transmitted CRC and the entries appended on a mismatch -/

/-- C11: for a buffer of bytes that holds `cargo_size >= 2` bytes, `janus_packet_get_crc16`
returns 256 times the byte at `cargo_size - 2` plus the byte at `cargo_size - 1`; this value is
below 2^16, and any buffer with the same two bytes at these places gives the same result. -/
theorem janus_packet_get_crc16_last_two_bytes (cargo : List Nat) (cs : Nat) (h2 : 2 ≤ cs)
    (hlen : cs ≤ cargo.length) (h32 : cs < 2 ^ 32) (hb : ∀ b ∈ cargo, b < 256) :
    janus_packet_get_crc16 cargo cs =
        some (256 * cargo.getD (cs - 2) 0 + cargo.getD (cs - 1) 0) ∧
      256 * cargo.getD (cs - 2) 0 + cargo.getD (cs - 1) 0 < 2 ^ 16 ∧
      ∀ cargo2 : List Nat, cs ≤ cargo2.length →
        cargo2.getD (cs - 2) 0 = cargo.getD (cs - 2) 0 →
        cargo2.getD (cs - 1) 0 = cargo.getD (cs - 1) 0 →
        janus_packet_get_crc16 cargo2 cs = janus_packet_get_crc16 cargo cs := by
  have m2 : cargo.getD (cs - 2) 0 < 256 := by
    rw [List.getD_eq_getElem _ _ (by omega)]
    exact hb _ (List.getElem_mem _)
  have m1 : cargo.getD (cs - 1) 0 < 256 := by
    rw [List.getD_eq_getElem _ _ (by omega)]
    exact hb _ (List.getElem_mem _)
  refine ⟨?_, by omega, ?_⟩
  · rw [janus_packet_get_crc16_eq cargo cs h2 hlen h32]
    unfold transmitted_crc
    rw [Nat.mod_eq_of_lt m2, Nat.mod_eq_of_lt m1]
  · intro cargo2 hlen2 e2 e1
    rw [janus_packet_get_crc16_eq cargo cs h2 hlen h32,
      janus_packet_get_crc16_eq cargo2 cs h2 hlen2 h32]
    unfold transmitted_crc
    rw [e2, e1]

theorem janus_packet_get_crc16_last_two_bytes_witness :
    janus_packet_get_crc16 [72, 105, 33, 161, 254] 5 = some (256 * 161 + 254) :=
  (janus_packet_get_crc16_last_two_bytes [72, 105, 33, 161, 254] 5 (by decide) (by decide)
    (by decide) (by decide)).1

theorem app_data_encode_entry_unrecognised (w : Nat) (f : janus_app_field)
    (h : recognised f.name = false) : app_data_encode_entry w f = w := by
  simp only [recognised, Bool.or_eq_false_iff, decide_eq_false_iff_not] at h
  obtain ⟨⟨⟨h1, h2⟩, h3⟩, h4⟩ := h
  simp only [app_data_encode_entry, if_neg h1, if_neg h2, if_neg h3, if_neg h4]

theorem foldl_entry_filter (fs : janus_app_fields) :
    ∀ w : Nat, (fs.filter (fun f => recognised f.name)).foldl app_data_encode_entry w =
      fs.foldl app_data_encode_entry w := by
  induction fs with
  | nil => intro w; rfl
  | cons f rest ih =>
    intro w
    cases h : recognised f.name with
    | true => simp only [List.filter_cons, h, if_true, List.foldl_cons, ih]
    | false =>
      simp only [List.filter_cons, h, Bool.false_eq_true, if_false, List.foldl_cons,
        app_data_encode_entry_unrecognised w f h, ih]

/-- C14: for every desired size and every collection, `app_data_encode` returns the same code,
the same encoded cargo size and the same word as on the collection from which every entry with a
name other than the four recognised ones has been filtered out. -/
theorem app_data_encode_ignores_unrecognised (d : Nat) (fs : janus_app_fields)
    (size c0 : Nat) :
    app_data_encode d (some (fs.filter (fun f => recognised f.name))) size c0 =
      app_data_encode d (some fs) size c0 := by
  unfold app_data_encode
  simp only [foldl_entry_filter]

/-! ## The four field writers -/

theorem shiftLeft_fit_lt (v k b : Nat) (hkb : k + b ≤ 64) (hv : v < 2 ^ b) :
    v <<< k < 2 ^ 64 := by
  rw [Nat.shiftLeft_eq]
  calc v * 2 ^ k < 2 ^ b * 2 ^ k := Nat.mul_lt_mul_of_pos_right hv (Nat.two_pow_pos k)
    _ = 2 ^ (b + k) := (pow_add 2 b k).symm
    _ ≤ 2 ^ 64 := Nat.pow_le_pow_right (by norm_num) (by omega)

/-- C17: each of the four field writers, given a 64-bit word `w` and an entry whose value `v`
fits the width of the field, returns `HMASK(w, offset) | (v << (64 - offset - width)) |
LMASK(w, 64 - offset - width)` with (offset, width) = (38, 8) for the Station Identifier, (46, 8)
for the Destination Identifier, (54, 1) for the Ack Request and (46, 12) for the Parameter Set
Identifier; the bits of the span, which starts at bit `64 - offset - width` counted from the
least significant bit, are those of `v`, and every other bit is the bit of `w`. -/
theorem field_writers_read_modify_write (w : Nat) (f : janus_app_field) (hw : w < 2 ^ 64) :
    (entry_value f < 2 ^ 8 →
      app_fields_encode_station_id w f =
          (HMASK w 38 ||| entry_value f <<< (64 - 38 - 8) ||| LMASK w (64 - 38 - 8)) ∧
        ∀ i : Nat, (app_fields_encode_station_id w f).testBit i =
          if 18 ≤ i ∧ i < 18 + 8 then (entry_value f).testBit (i - 18) else w.testBit i) ∧
    (entry_value f < 2 ^ 8 →
      app_fields_encode_destination_id w f =
          (HMASK w 46 ||| entry_value f <<< (64 - 46 - 8) ||| LMASK w (64 - 46 - 8)) ∧
        ∀ i : Nat, (app_fields_encode_destination_id w f).testBit i =
          if 10 ≤ i ∧ i < 10 + 8 then (entry_value f).testBit (i - 10) else w.testBit i) ∧
    (entry_value f < 2 ^ 1 →
      app_fields_encode_ack_request w f =
          (HMASK w 54 ||| entry_value f <<< (64 - 54 - 1) ||| LMASK w (64 - 54 - 1)) ∧
        ∀ i : Nat, (app_fields_encode_ack_request w f).testBit i =
          if 9 ≤ i ∧ i < 9 + 1 then (entry_value f).testBit (i - 9) else w.testBit i) ∧
    (entry_value f < 2 ^ 12 →
      app_fields_encode_pset_id w f =
          (HMASK w 46 ||| entry_value f <<< (64 - 46 - 12) ||| LMASK w (64 - 46 - 12)) ∧
        ∀ i : Nat, (app_fields_encode_pset_id w f).testBit i =
          if 6 ≤ i ∧ i < 6 + 12 then (entry_value f).testBit (i - 6) else w.testBit i) := by
  refine ⟨fun hv => ⟨?_, fun i => ?_⟩, fun hv => ⟨?_, fun i => ?_⟩,
    fun hv => ⟨?_, fun i => ?_⟩, fun hv => ⟨?_, fun i => ?_⟩⟩
  · rw [encode_station_eq, Nat.mod_eq_of_lt (shiftLeft_fit_lt _ 18 8 (by norm_num) hv)]
  · rw [encode_station_eq]; exact testBit_write_fit w _ 18 8 i (by norm_num) hw hv
  · rw [encode_destination_eq, Nat.mod_eq_of_lt (shiftLeft_fit_lt _ 10 8 (by norm_num) hv)]
  · rw [encode_destination_eq]; exact testBit_write_fit w _ 10 8 i (by norm_num) hw hv
  · rw [encode_ack_eq, Nat.mod_eq_of_lt (shiftLeft_fit_lt _ 9 1 (by norm_num) hv)]
  · rw [encode_ack_eq]; exact testBit_write_fit w _ 9 1 i (by norm_num) hw hv
  · rw [encode_pset_eq, Nat.mod_eq_of_lt (shiftLeft_fit_lt _ 6 12 (by norm_num) hv)]
  · rw [encode_pset_eq]; exact testBit_write_fit w _ 6 12 i (by norm_num) hw hv

theorem field_writers_read_modify_write_witness :
    app_fields_encode_station_id (2 ^ 64 - 1) ⟨STATION_ID_LABEL, janus_value.str "5"⟩ =
      (HMASK (2 ^ 64 - 1) 38 |||
        entry_value ⟨STATION_ID_LABEL, janus_value.str "5"⟩ <<< (64 - 38 - 8) |||
        LMASK (2 ^ 64 - 1) (64 - 38 - 8)) :=
  ((field_writers_read_modify_write (2 ^ 64 - 1) ⟨STATION_ID_LABEL, janus_value.str "5"⟩
    (by norm_num)).1 (by decide)).1

/-! ## A value wider than its field -/

theorem app_data_encode_entry_span (w : Nat) (f : janus_app_field) :
    app_data_encode_entry w f =
      match field_span f.name with
      | some (k, b) => HMASK w (64 - k - b) ||| (entry_value f <<< k) % 2 ^ 64 ||| LMASK w k
      | none => w := by
  unfold app_data_encode_entry field_span
  split_ifs <;> rfl

theorem field_span_le (name : String) (k b : Nat) (h : field_span name = some (k, b)) :
    k + b ≤ 26 := by
  unfold field_span at h
  split_ifs at h <;> simp at h <;> omega

/-- The bits of a value above the width of the field are OR-ed into the word above the span. -/
theorem write_spill (w v k b : Nat) (hkb : k + b ≤ 64) (hw : w < 2 ^ 64) :
    (HMASK w (64 - k - b) ||| (v <<< k) % 2 ^ 64 ||| LMASK w k) =
      (HMASK w (64 - k - b) ||| ((v % 2 ^ b) <<< k) % 2 ^ 64 ||| LMASK w k) |||
        ((v >>> b) <<< (k + b)) % 2 ^ 64 := by
  apply Nat.eq_of_testBit_eq
  intro i
  have hL := testBit_write w v k b i hkb hw
  have hR := testBit_write_fit w (v % 2 ^ b) k b i hkb hw (Nat.mod_lt _ (Nat.two_pow_pos b))
  rw [hL, Nat.testBit_or (HMASK w (64 - k - b) ||| ((v % 2 ^ b) <<< k) % 2 ^ 64 ||| LMASK w k),
    hR, Nat.testBit_mod_two_pow, Nat.testBit_mod_two_pow, Nat.testBit_shiftLeft,
    Nat.testBit_shiftRight]
  by_cases h1 : i < k
  · have h2 : ¬ (k ≤ i ∧ i < k + b) := by omega
    have h3 : ¬ (k + b ≤ i) := by omega
    simp [h1, h2, h3]
  · by_cases h2 : i < k + b
    · have h3 : k ≤ i ∧ i < k + b := by omega
      have h4 : ¬ (k + b ≤ i) := by omega
      have h5 : i - k < b := by omega
      simp [h1, h2, h3, h4, h5]
    · have h3 : ¬ (k ≤ i ∧ i < k + b) := by omega
      have h4 : k + b ≤ i := by omega
      have h5 : b + (i - (k + b)) = i - k := by omega
      simp [h1, h2, h3, h4, h5]

/-- Bits set above bit 25 of the word go through a field writer unchanged. -/
theorem write_or_high (w s v k b : Nat) (hkb : k + b ≤ 26) (hw : w < 2 ^ 64) (hs : s < 2 ^ 64)
    (hlow : ∀ i : Nat, i < 26 → s.testBit i = false) :
    (HMASK (w ||| s) (64 - k - b) ||| (v <<< k) % 2 ^ 64 ||| LMASK (w ||| s) k) =
      (HMASK w (64 - k - b) ||| (v <<< k) % 2 ^ 64 ||| LMASK w k) ||| s := by
  apply Nat.eq_of_testBit_eq
  intro i
  have hL := testBit_write (w ||| s) v k b i (by omega) (Nat.or_lt_two_pow hw hs)
  have hR := testBit_write w v k b i (by omega) hw
  rw [hL, Nat.testBit_or (HMASK w (64 - k - b) ||| (v <<< k) % 2 ^ 64 ||| LMASK w k), hR,
    Nat.testBit_or]
  by_cases h1 : i < k
  · simp [h1]
  · by_cases h2 : i < k + b
    · simp [h1, h2, hlow i (by omega)]
    · simp only [h1, h2, if_false]
      cases w.testBit i <;> cases s.testBit i <;> simp

theorem app_data_encode_entry_or_high (w s : Nat) (g : janus_app_field) (hw : w < 2 ^ 64)
    (hs : s < 2 ^ 64) (hlow : ∀ i : Nat, i < 26 → s.testBit i = false) :
    app_data_encode_entry (w ||| s) g = app_data_encode_entry w g ||| s := by
  rw [app_data_encode_entry_span, app_data_encode_entry_span]
  cases h : field_span g.name with
  | none => rfl
  | some p =>
    obtain ⟨k, b⟩ := p
    exact write_or_high w s _ k b (field_span_le _ k b h) hw hs hlow

theorem foldl_entry_or_high (s : Nat) (hs : s < 2 ^ 64)
    (hlow : ∀ i : Nat, i < 26 → s.testBit i = false) (fs : janus_app_fields) :
    ∀ w : Nat, w < 2 ^ 64 →
      fs.foldl app_data_encode_entry (w ||| s) = fs.foldl app_data_encode_entry w ||| s := by
  induction fs with
  | nil => intro w _; rfl
  | cons g rest ih =>
    intro w hw
    rw [List.foldl_cons, List.foldl_cons, app_data_encode_entry_or_high w s g hw hs hlow]
    exact ih _ (app_data_encode_entry_lt w g hw)

theorem spill_low_bits (v : Nat) :
    ∀ i : Nat, i < 26 → (((v / 256) <<< 26) % 2 ^ 64).testBit i = false := by
  intro i hi
  rw [Nat.testBit_mod_two_pow, Nat.testBit_shiftLeft]
  have : ¬ (26 ≤ i) := by omega
  simp [this]

/-- C16, as the specification words it, fails on the all-zero word: the Station Identifier value
999 gives a word that differs from the word of the value 231, which is 999 mod 256. -/
theorem station_value_truncation_counterexample :
    entry_value ⟨STATION_ID_LABEL, janus_value.str "231"⟩ =
        entry_value ⟨STATION_ID_LABEL, janus_value.str "999"⟩ % 256 ∧
      (app_data_encode 0 (some [⟨STATION_ID_LABEL, janus_value.str "999"⟩]) 64 0).2.2 ≠
        (app_data_encode 0 (some [⟨STATION_ID_LABEL, janus_value.str "231"⟩]) 64 0).2.2 := by
  decide

/-- C16 (amended): a Station Identifier value `v` is not truncated to 8 bits. For every desired
size up to 480 and every other content of the collection, the return code and the encoded cargo
size are those obtained with the value `v mod 256`, and the word is the word obtained with
`v mod 256` OR-ed with `v / 256` shifted left by 26 bits (within 64 bits): the bits of `v` above
the width of the field are written above its span. -/
theorem station_value_spills_above_span (d : Nat) (pre post : janus_app_fields)
    (f g : janus_app_field) (size c0 : Nat) (hd : d ≤ 480) (hf : f.name = STATION_ID_LABEL)
    (hg : g.name = STATION_ID_LABEL) (hv : entry_value g = entry_value f % 256) :
    (app_data_encode d (some (pre ++ f :: post)) size c0).1 =
        (app_data_encode d (some (pre ++ g :: post)) size c0).1 ∧
      (app_data_encode d (some (pre ++ f :: post)) size c0).2.1 =
        (app_data_encode d (some (pre ++ g :: post)) size c0).2.1 ∧
      (app_data_encode d (some (pre ++ f :: post)) size c0).2.2 =
        (app_data_encode d (some (pre ++ g :: post)) size c0).2.2 |||
          ((entry_value f / 256) <<< 26) % 2 ^ 64 := by
  rw [app_data_encode_some d _ size c0 hd, app_data_encode_some d _ size c0 hd]
  refine ⟨rfl, rfl, ?_⟩
  have hW : pre.foldl app_data_encode_entry d < 2 ^ 64 := foldl_entry_lt pre d (by omega)
  have ef : ∀ w : Nat, app_data_encode_entry w f = app_fields_encode_station_id w f := by
    intro w; simp only [app_data_encode_entry, if_pos hf]
  have eg : ∀ w : Nat, app_data_encode_entry w g = app_fields_encode_station_id w g := by
    intro w; simp only [app_data_encode_entry, if_pos hg]
  have hsp := write_spill (pre.foldl app_data_encode_entry d) (entry_value f) 18 8
    (by norm_num) hW
  have h256 : entry_value f % 2 ^ 8 = entry_value g := by rw [hv]; norm_num
  have hdiv : entry_value f >>> 8 = entry_value f / 256 := by
    rw [Nat.shiftRight_eq_div_pow]
  rw [h256, hdiv] at hsp
  simp only [List.foldl_append, List.foldl_cons]
  rw [ef, eg, encode_station_eq, encode_station_eq, hsp]
  exact foldl_entry_or_high _ (Nat.mod_lt _ (by norm_num)) (spill_low_bits _) post _
    (write_lt _ _ 18 8 hW)

theorem station_value_spills_above_span_witness :
    (app_data_encode 0 (some ([] ++ (⟨STATION_ID_LABEL, janus_value.str "999"⟩ :
        janus_app_field) :: [])) 64 0).2.2 =
      (app_data_encode 0 (some ([] ++ (⟨STATION_ID_LABEL, janus_value.str "231"⟩ :
        janus_app_field) :: [])) 64 0).2.2 |||
        ((entry_value ⟨STATION_ID_LABEL, janus_value.str "999"⟩ / 256) <<< 26) % 2 ^ 64 :=
  (station_value_spills_above_span 0 [] [] ⟨STATION_ID_LABEL, janus_value.str "999"⟩
    ⟨STATION_ID_LABEL, janus_value.str "231"⟩ 64 0 (by decide) rfl rfl (by decide)).2.2

/-! ## Several entries under one name -/

/-- Two words that agree outside a span still agree outside it after the same entry is applied
to both. -/
theorem app_data_encode_entry_agree (x y : Nat) (g : janus_app_field) (k b : Nat)
    (hx : x < 2 ^ 64) (hy : y < 2 ^ 64)
    (h : ∀ i : Nat, ¬ (k ≤ i ∧ i < k + b) → x.testBit i = y.testBit i) :
    ∀ i : Nat, ¬ (k ≤ i ∧ i < k + b) →
      (app_data_encode_entry x g).testBit i = (app_data_encode_entry y g).testBit i := by
  intro i hi
  rw [app_data_encode_entry_span, app_data_encode_entry_span]
  cases hg : field_span g.name with
  | none => exact h i hi
  | some p =>
    obtain ⟨k2, b2⟩ := p
    have hle := field_span_le _ k2 b2 hg
    show (HMASK x (64 - k2 - b2) ||| (entry_value g <<< k2) % 2 ^ 64 ||| LMASK x k2).testBit i =
      (HMASK y (64 - k2 - b2) ||| (entry_value g <<< k2) % 2 ^ 64 ||| LMASK y k2).testBit i
    rw [testBit_write x _ k2 b2 i (by omega) hx, testBit_write y _ k2 b2 i (by omega) hy,
      h i hi]

/-- Two words that agree outside the span of an entry that fits are equal after it is applied. -/
theorem app_data_encode_entry_absorb (x y : Nat) (g : janus_app_field) (k b : Nat)
    (hx : x < 2 ^ 64) (hy : y < 2 ^ 64) (hg : field_span g.name = some (k, b))
    (hfit : entry_fits g = true)
    (h : ∀ i : Nat, ¬ (k ≤ i ∧ i < k + b) → x.testBit i = y.testBit i) :
    app_data_encode_entry x g = app_data_encode_entry y g := by
  have hle := field_span_le _ k b hg
  have hv : entry_value g < 2 ^ b := by
    simp only [entry_fits, hg, decide_eq_true_eq] at hfit
    exact hfit
  rw [app_data_encode_entry_span, app_data_encode_entry_span, hg]
  show (HMASK x (64 - k - b) ||| (entry_value g <<< k) % 2 ^ 64 ||| LMASK x k) =
    (HMASK y (64 - k - b) ||| (entry_value g <<< k) % 2 ^ 64 ||| LMASK y k)
  apply Nat.eq_of_testBit_eq
  intro i
  rw [testBit_write_fit x _ k b i (by omega) hx hv, testBit_write_fit y _ k b i (by omega) hy hv]
  by_cases hi : k ≤ i ∧ i < k + b
  · rw [if_pos hi, if_pos hi]
  · rw [if_neg hi, if_neg hi]
    exact h i hi

theorem foldl_entry_absorb (name : String) (k b : Nat) (hspan : field_span name = some (k, b))
    (rest : janus_app_fields) :
    (∃ g ∈ rest, g.name = name) → (∀ g ∈ rest, entry_fits g = true) →
      ∀ x y : Nat, x < 2 ^ 64 → y < 2 ^ 64 →
        (∀ i : Nat, ¬ (k ≤ i ∧ i < k + b) → x.testBit i = y.testBit i) →
        rest.foldl app_data_encode_entry x = rest.foldl app_data_encode_entry y := by
  induction rest with
  | nil =>
    rintro ⟨g, hg, _⟩
    exact absurd hg (List.not_mem_nil g)
  | cons g r ih =>
    intro hex hfit x y hx hy h
    rw [List.foldl_cons, List.foldl_cons]
    by_cases hn : g.name = name
    · rw [app_data_encode_entry_absorb x y g k b hx hy (by rw [hn]; exact hspan)
        (hfit g (List.mem_cons_self _ _)) h]
    · have hex2 : ∃ g2 ∈ r, g2.name = name := by
        obtain ⟨g2, hm, hn2⟩ := hex
        rcases List.mem_cons.mp hm with e | hm2
        · rw [e] at hn2
          exact absurd hn2 hn
        · exact ⟨g2, hm2, hn2⟩
      exact ih hex2 (fun g2 hm => hfit g2 (List.mem_cons_of_mem _ hm)) _ _
        (app_data_encode_entry_lt x g hx) (app_data_encode_entry_lt y g hy)
        (app_data_encode_entry_agree x y g k b hx hy h)

theorem foldl_remove_earlier_duplicates (fs : janus_app_fields) :
    (∀ g ∈ fs, entry_fits g = true) → ∀ w : Nat, w < 2 ^ 64 →
      (remove_earlier_duplicates fs).foldl app_data_encode_entry w =
        fs.foldl app_data_encode_entry w := by
  induction fs with
  | nil => intro _ w _; rfl
  | cons f rest ih =>
    intro hfit w hw
    have hrest : ∀ g ∈ rest, entry_fits g = true :=
      fun g hm => hfit g (List.mem_cons_of_mem _ hm)
    by_cases hany : rest.any (fun g => g.name = f.name) = true
    · rw [remove_earlier_duplicates, if_pos hany, ih hrest w hw, List.foldl_cons]
      cases hsp : field_span f.name with
      | none => rw [app_data_encode_entry_span, hsp]
      | some p =>
        obtain ⟨k, b⟩ := p
        have hle := field_span_le _ k b hsp
        have hex : ∃ g ∈ rest, g.name = f.name := by
          simpa [List.any_eq_true] using hany
        have hv : entry_value f < 2 ^ b := by
          have h1 := hfit f (List.mem_cons_self _ _)
          simp only [entry_fits, hsp, decide_eq_true_eq] at h1
          exact h1
        apply foldl_entry_absorb f.name k b hsp rest hex hrest w _ hw
          (app_data_encode_entry_lt w f hw)
        intro i hi
        rw [app_data_encode_entry_span, hsp]
        show w.testBit i =
          (HMASK w (64 - k - b) ||| (entry_value f <<< k) % 2 ^ 64 ||| LMASK w k).testBit i
        rw [testBit_write_fit w _ k b i (by omega) hw hv, if_neg hi]
    · rw [remove_earlier_duplicates, if_neg hany, List.foldl_cons, List.foldl_cons]
      exact ih hrest _ (app_data_encode_entry_lt w f hw)

/-- C18, as the specification words it, fails with two Station Identifier entries of values 1
and 2: the word is not the word of the collection with the later duplicate removed (which holds the value 1 only);
it is the word of the last entry alone. -/
theorem app_data_encode_first_match_counterexample :
    remove_later_duplicates [⟨STATION_ID_LABEL, janus_value.str "1"⟩,
        ⟨STATION_ID_LABEL, janus_value.str "2"⟩] = [⟨STATION_ID_LABEL, janus_value.str "1"⟩] ∧
      (app_data_encode 0 (some [⟨STATION_ID_LABEL, janus_value.str "1"⟩,
        ⟨STATION_ID_LABEL, janus_value.str "2"⟩]) 64 0).2.2 ≠
        (app_data_encode 0 (some (remove_later_duplicates
          [⟨STATION_ID_LABEL, janus_value.str "1"⟩,
           ⟨STATION_ID_LABEL, janus_value.str "2"⟩])) 64 0).2.2 ∧
      (app_data_encode 0 (some [⟨STATION_ID_LABEL, janus_value.str "1"⟩,
        ⟨STATION_ID_LABEL, janus_value.str "2"⟩]) 64 0).2.2 =
        (app_data_encode 0 (some [⟨STATION_ID_LABEL, janus_value.str "2"⟩]) 64 0).2.2 := by
  decide

/-- C18 (amended): `app_data_encode` applies every entry with a recognised name in order, so the
last entry of a name wins: for every desired size and every collection whose values fit the
widths of their fields, the return code, the encoded cargo size and the word equal those of the
collection with every earlier duplicate of a name removed. -/
theorem app_data_encode_last_entry_wins (d : Nat) (fs : janus_app_fields) (size c0 : Nat)
    (hfit : ∀ g ∈ fs, entry_fits g = true) :
    app_data_encode d (some fs) size c0 =
      app_data_encode d (some (remove_earlier_duplicates fs)) size c0 := by
  by_cases hd : d ≤ 480
  · rw [app_data_encode_some d _ size c0 hd, app_data_encode_some d _ size c0 hd,
      foldl_remove_earlier_duplicates fs hfit d (by omega)]
  · have h : d > 480 := by omega
    simp [app_data_encode, h]

theorem app_data_encode_last_entry_wins_witness :
    app_data_encode 0 (some [⟨STATION_ID_LABEL, janus_value.str "1"⟩,
        ⟨DESTINATION_ID_LABEL, janus_value.str "7"⟩,
        ⟨STATION_ID_LABEL, janus_value.str "2"⟩]) 64 0 =
      app_data_encode 0 (some (remove_earlier_duplicates
        [⟨STATION_ID_LABEL, janus_value.str "1"⟩,
         ⟨DESTINATION_ID_LABEL, janus_value.str "7"⟩,
         ⟨STATION_ID_LABEL, janus_value.str "2"⟩])) 64 0 :=
  app_data_encode_last_entry_wins 0 _ 64 0 (by decide)

/-! ## `cargo_encode` -/

theorem find_none_of_count_zero (L : String) (fs : janus_app_fields)
    (h : field_count L fs = 0) : fs.find? (fun f => decide (f.name = L)) = none := by
  have h0 := List.countP_eq_zero.mp h
  rw [List.find?_eq_none]
  intro f hf
  exact h0 f hf

/-- C12, as the specification words it, fails on the empty collection with the slot
`*cargo_size` holding 0 before the call: `cargo_encode` returns 0 and not the missing-fields
error. -/
theorem cargo_encode_missing_fields_counterexample :
    field_count PAYLOAD_SIZE_LABEL [] = 0 ∧ field_count PAYLOAD_LABEL [] = 0 ∧
      (cargo_encode 4096 (fun _ n => some (List.replicate n 0)) [] none 0).map Prod.fst =
        some janus_rc.ok ∧
      (cargo_encode 4096 (fun _ n => some (List.replicate n 0)) [] none 0).map Prod.fst ≠
        some janus_rc.JANUS_ERROR_FIELDS := by
  decide

/-- C12 (amended): on a collection with no entry named `PayloadSize` and none named `Payload`,
`cargo_encode` leaves `*cargo` and `*cargo_size` as they were and returns the missing-fields
error when `*cargo_size` held a value other than 0 before the call, and 0 when it held 0. -/
theorem cargo_encode_missing_fields (max_size : Nat) (realloc : Nat → Nat → Option (List Nat))
    (fs : janus_app_fields) (cargo0 : Option (List Nat)) (c0 : Nat)
    (h1 : field_count PAYLOAD_SIZE_LABEL fs = 0) (h2 : field_count PAYLOAD_LABEL fs = 0) :
    cargo_encode max_size realloc fs cargo0 c0 =
      some (if c0 = 0 then janus_rc.ok else janus_rc.JANUS_ERROR_FIELDS, cargo0, c0) := by
  unfold cargo_encode
  simp only [find_none_of_count_zero _ fs h1, find_none_of_count_zero _ fs h2]
  split_ifs <;> rfl

theorem cargo_encode_missing_fields_witness :
    cargo_encode 4096 (fun _ n => some (List.replicate n 0))
        [⟨STATION_ID_LABEL, janus_value.str "7"⟩] none 3 =
      some (if 3 = 0 then janus_rc.ok else janus_rc.JANUS_ERROR_FIELDS, none, 3) :=
  cargo_encode_missing_fields 4096 (fun _ n => some (List.replicate n 0))
    [⟨STATION_ID_LABEL, janus_value.str "7"⟩] none 3 (by decide) (by decide)

/-! ## `cargo_encode`: the pointer handed to the allocator -/

theorem or_ne_zero_right (a m : Nat) (hm : m ≠ 0) : a ||| m ≠ 0 := by
  intro h
  apply hm
  apply Nat.eq_of_testBit_eq
  intro i
  have := congrArg (fun z => Nat.testBit z i) h
  simp only [Nat.testBit_or, Nat.zero_testBit, Bool.or_eq_false_iff] at this
  rw [this.2, Nat.zero_testBit]

theorem uint8_or_ne_zero (x y : UInt8) (hy : y.toNat ≠ 0) : (x ||| y).toNat ≠ 0 := by
  have : (x ||| y).toNat = x.toNat ||| y.toNat := by
    show (x.toBitVec ||| y.toBitVec).toNat = _
    rw [BitVec.toNat_or]
    rfl
  rw [this]
  exact or_ne_zero_right _ _ hy

/-- The first byte of the UTF-8 encoding of a character other than NUL is not zero. -/
theorem utf8EncodeChar_head_ne_zero (c : Char) (h : c.toNat ≠ 0) :
    ((String.utf8EncodeChar c).map (fun b => b.toNat)).headD 0 ≠ 0 := by
  unfold String.utf8EncodeChar
  simp only
  split_ifs with h1 h2 h3
  all_goals simp only [List.map_cons, List.headD_cons]
  · have h4 : c.val.toNat ≤ 127 := h1
    have h5 : c.val.toUInt8.toNat = c.val.toNat % 256 := rfl
    rw [h5]
    have h6 : c.val.toNat ≠ 0 := h
    omega
  · exact uint8_or_ne_zero _ _ (by decide)
  · exact uint8_or_ne_zero _ _ (by decide)
  · exact uint8_or_ne_zero _ _ (by decide)

theorem headD_takeWhile_ne_zero (l : List Nat) (h : (l.takeWhile (fun b => b ≠ 0)) ≠ []) :
    (l.takeWhile (fun b => b ≠ 0)).headD 0 ≠ 0 := by
  cases l with
  | nil => exact absurd rfl h
  | cons a rest =>
    by_cases ha : a = 0
    · rw [ha] at h
      simp at h
    · simp [List.takeWhile_cons, ha]

/-- The character `*payload` is not the null pointer unless the payload is the empty string. -/
theorem c_bytes_headD_ne_zero (v : janus_value) (h : strlen v ≠ 0) :
    (c_bytes v).headD 0 ≠ 0 := by
  cases v with
  | str s =>
    have h2 : ((s.data.takeWhile (fun c => c.toNat ≠ 0)).map
        (fun c => (String.utf8EncodeChar c).map (fun b => b.toNat))).flatten.length ≠ 0 := h
    show (((s.data.takeWhile (fun c => c.toNat ≠ 0)).map
        (fun c => (String.utf8EncodeChar c).map (fun b => b.toNat))).flatten).headD 0 ≠ 0
    cases hL : s.data.takeWhile (fun c => decide (c.toNat ≠ 0)) with
    | nil =>
      rw [hL] at h2
      exact absurd rfl h2
    | cons c rest =>
      have hmem : c ∈ s.data.takeWhile (fun c => decide (c.toNat ≠ 0)) := by
        rw [hL]
        exact List.mem_cons_self _ _
      have hc : c.toNat ≠ 0 := by
        have := List.mem_takeWhile_imp hmem
        simpa using this
      have hhead := utf8EncodeChar_head_ne_zero c hc
      simp only [List.map_cons, List.flatten_cons]
      cases hE : (String.utf8EncodeChar c).map (fun b => b.toNat) with
      | nil =>
        rw [hE] at hhead
        exact absurd rfl hhead
      | cons b bs =>
        rw [hE] at hhead
        exact hhead
  | blob bytes =>
    have h2 : ((bytes.map (fun b => b % 256)).takeWhile (fun b => b ≠ 0)).length ≠ 0 := h
    show ((bytes.map (fun b => b % 256)).takeWhile (fun b => b ≠ 0)).headD 0 ≠ 0
    exact headD_takeWhile_ne_zero _ (fun h0 => h2 (by rw [h0]; rfl))

/-- C13 at the failing input: the collection holds one `Payload` entry of value "Hi!", of string
length 3, and no `PayloadSize` entry, and the maximum packet cargo size is 4096; `cargo_encode`
hands the character 'H' (72) to the allocator as its pointer and has no defined result, so it
does not return 0 with `*cargo_size` set to 3. -/
theorem cargo_encode_payload_pointer_counterexample :
    field_count PAYLOAD_SIZE_LABEL [⟨PAYLOAD_LABEL, janus_value.str "Hi!"⟩] = 0 ∧
      strlen (janus_value.str "Hi!") = 3 ∧
      (c_bytes (janus_value.str "Hi!")).headD 0 = 72 ∧
      cargo_encode 4096 (fun _ n => some (List.replicate n 0))
        [⟨PAYLOAD_LABEL, janus_value.str "Hi!"⟩] none 0 = none := by
  decide

/-- What `cargo_encode` does on a collection with no `PayloadSize` entry whose first `Payload`
entry has a value of string length `n`: above the maximum packet cargo size it returns the
cargo-size error with `*cargo_size` set to `n`; for `n = 0` it returns 0 with `*cargo_size` set
to 0; for every other `n` the allocator is handed a character that is not the null pointer and
the call has no defined result. -/
theorem cargo_encode_payload_cases (max_size : Nat)
    (realloc : Nat → Nat → Option (List Nat)) (fs : janus_app_fields) (f : janus_app_field)
    (cargo0 : Option (List Nat)) (c0 : Nat)
    (h1 : field_count PAYLOAD_SIZE_LABEL fs = 0)
    (hf : fs.find? (fun g => decide (g.name = PAYLOAD_LABEL)) = some f)
    (h32 : strlen f.value < 2 ^ 32) :
    (max_size < strlen f.value →
      cargo_encode max_size realloc fs cargo0 c0 =
        some (janus_rc.JANUS_ERROR_CARGO_SIZE, cargo0, strlen f.value)) ∧
    (strlen f.value ≤ max_size → strlen f.value ≠ 0 →
      cargo_encode max_size realloc fs cargo0 c0 = none) ∧
    (strlen f.value = 0 →
      cargo_encode max_size realloc fs cargo0 c0 = some (janus_rc.ok, realloc 0 0, 0)) := by
  have hm : strlen f.value % 2 ^ 32 = strlen f.value := Nat.mod_eq_of_lt h32
  unfold cargo_encode
  simp only [find_none_of_count_zero _ fs h1, hf, Bool.not_false, if_true, hm]
  refine ⟨?_, ?_, ?_⟩
  · intro hlt
    have hn : strlen f.value > max_size := hlt
    rw [if_pos hn]
  · intro hle hne
    have hn : ¬ strlen f.value > max_size := by omega
    rw [if_neg hn, if_pos (c_bytes_headD_ne_zero f.value hne)]
  · intro h0
    have hn : ¬ strlen f.value > max_size := by omega
    have hnil : c_bytes f.value = [] := List.length_eq_zero.mp h0
    rw [if_neg hn, hnil, h0]
    simp

theorem cargo_encode_payload_cases_witness :
    cargo_encode 2 (fun _ n => some (List.replicate n 0))
        [⟨STATION_ID_LABEL, janus_value.str "7"⟩, ⟨PAYLOAD_LABEL, janus_value.str "Hi!"⟩]
        none 9 =
      some (janus_rc.JANUS_ERROR_CARGO_SIZE, none, strlen (janus_value.str "Hi!")) :=
  (cargo_encode_payload_cases 2 (fun _ n => some (List.replicate n 0))
    [⟨STATION_ID_LABEL, janus_value.str "7"⟩, ⟨PAYLOAD_LABEL, janus_value.str "Hi!"⟩]
    ⟨PAYLOAD_LABEL, janus_value.str "Hi!"⟩ none 9 (by decide) (by decide) (by decide)).1
    (by decide)

end Janus
